import Mathlib

/-!
Shallow embedding of the `uasset_utils` asset-registry codec
(`src/uasset_utils/src/asset_registry.rs` and `src/uasset_utils/src/paths.rs`).

The byte stream is a `List Nat` of bytes; readers are functions
`List Nat → Except Err (α × List Nat)` mirroring the `Readable` trait
(`read(reader) -> Result<Self>` consuming the reader in place), and writers
are pure functions `α → List Nat` mirroring the `Writable` trait.
Machine integers are `Nat` with explicit `% 2^w` where the source relies on
fixed-width behavior.  Rust `String` is modelled as `List Char` (Lean `Char`
is a Unicode scalar value, as in Rust).
-/

deriving instance DecidableEq for Except

namespace UAssetReg

/-- Decode outcomes of the Rust code. `truncatedInput` models an `Err` from a
read past the end of the stream; `malformedFraming` models the
`assert_eq!` failures on the Store sentinels; `invalidTypeTag` models the
`TryFrom<u32> for Type` error; `arithUnderflow` models the abort caused by
the `as usize - 1` underflow in `Store::read`'s text loop (a Rust panic,
not a returned `Result` error). -/
inductive Err where
  | truncatedInput
  | malformedFraming
  | invalidTypeTag
  | arithUnderflow
deriving DecidableEq, Repr

/-- Read one byte (`read_u8`). -/
def readU8 : List Nat → Except Err (Nat × List Nat)
  | [] => .error .truncatedInput
  | b :: s => .ok (b, s)

/-- Read a little-endian `u16` (`read_u16::<LE>`). -/
def readU16 : List Nat → Except Err (Nat × List Nat)
  | a :: b :: s => .ok ((a + 256 * b) % 65536, s)
  | _ => .error .truncatedInput

/-- Read a big-endian `u16` (`read_u16::<BE>`), used for name lengths. -/
def readU16be : List Nat → Except Err (Nat × List Nat)
  | a :: b :: s => .ok ((256 * a + b) % 65536, s)
  | _ => .error .truncatedInput

/-- Read a little-endian `u32` (`read_u32::<LE>`). -/
def readU32 : List Nat → Except Err (Nat × List Nat)
  | a :: b :: c :: d :: s =>
      .ok ((a + 256 * b + 65536 * c + 16777216 * d) % 4294967296, s)
  | _ => .error .truncatedInput

/-- Read a little-endian `u64` (`read_u64::<LE>`). -/
def readU64 : List Nat → Except Err (Nat × List Nat)
  | a :: b :: c :: d :: e :: f :: g :: h :: s =>
      .ok ((a + 256 * b + 65536 * c + 16777216 * d + 4294967296 * e +
            1099511627776 * f + 281474976710656 * g + 72057594037927936 * h) %
            18446744073709551616, s)
  | _ => .error .truncatedInput

/-- Read `n` raw bytes (`read_exact` into a buffer of length `n`). -/
def readBytes (n : Nat) (s : List Nat) : Except Err (List Nat × List Nat) :=
  if n ≤ s.length then .ok (s.take n, s.drop n) else .error .truncatedInput

/-- Write one byte (`write_u8`). -/
def writeU8 (v : Nat) : List Nat := [v % 256]

/-- Write a little-endian `u16` (`write_u16::<LE>`). -/
def writeU16 (v : Nat) : List Nat := [v % 256, v / 256 % 256]

/-- Write a big-endian `u16` (`write_u16::<BE>`). -/
def writeU16be (v : Nat) : List Nat := [v / 256 % 256, v % 256]

/-- Write a little-endian `u32` (`write_u32::<LE>`). -/
def writeU32 (v : Nat) : List Nat :=
  [v % 256, v / 256 % 256, v / 65536 % 256, v / 16777216 % 256]

/-- Write a little-endian `u64` (`write_u64::<LE>`). -/
def writeU64 (v : Nat) : List Nat :=
  writeU32 (v % 4294967296) ++ writeU32 (v / 4294967296 % 4294967296)

/-- Run a reader `n` times, collecting the results (the source's
`read_array`). -/
def readArray {α : Type} (f : List Nat → Except Err (α × List Nat)) :
    Nat → List Nat → Except Err (List α × List Nat)
  | 0, s => .ok ([], s)
  | n + 1, s => do
    let (x, s) ← f s
    let (xs, s) ← readArray f n s
    .ok (x :: xs, s)

/-- Unicode replacement character U+FFFD, used by the permissive string
decoding (`String::from_utf8_lossy`, `char::from_u32(..).unwrap_or`). -/
def replChar : Char := Char.ofNat 65533

/-- Turn a code-unit value into a `Char`, substituting U+FFFD when the value
is not a Unicode scalar value (models `char::from_u32(n).unwrap_or(REPLACEMENT_CHARACTER)`
and the per-scalar step of lossy UTF-8 decoding). -/
def mkLossyChar (n : Nat) : Char :=
  if n.isValidChar then Char.ofNat n else replChar

/-- UTF-8 encoding of one Unicode scalar value, written with `/`, `%`, `+`
(equivalent to the usual shift/mask formulation). -/
def utf8EncodeCharNat (n : Nat) : List Nat :=
  if n < 128 then [n]
  else if n < 2048 then [192 + n / 64, 128 + n % 64]
  else if n < 65536 then [224 + n / 4096, 128 + n / 64 % 64, 128 + n % 64]
  else [240 + n / 262144, 128 + n / 4096 % 64, 128 + n / 64 % 64, 128 + n % 64]

/-- UTF-8 byte serialization of a string (Rust `str::as_bytes`). -/
def utf8Encode (s : List Char) : List Nat :=
  s.flatMap (fun c => utf8EncodeCharNat c.toNat)

/-- Test for a UTF-8 continuation byte. -/
def isCont (b : Nat) : Bool := 128 ≤ b && b < 192

/-- Decode one scalar from a lead byte and the following bytes, returning
the decoded character and the not-yet-consumed tail (with the length bound
that makes the decoding loop terminate).  Valid sequences decode to their
scalar; malformed leads or missing continuation bytes yield U+FFFD and
resume after the offending byte. -/
def utf8Step (b0 : Nat) (rest : List Nat) :
    Char × {l : List Nat // l.length ≤ rest.length} :=
  if b0 < 128 then (mkLossyChar b0, ⟨rest, Nat.le_refl _⟩)
  else if b0 < 192 then (replChar, ⟨rest, Nat.le_refl _⟩)
  else if b0 < 224 then
    match rest with
    | b1 :: rest2 =>
      if isCont b1 then
        (mkLossyChar ((b0 - 192) * 64 + (b1 - 128)),
         ⟨rest2, Nat.le_succ_of_le (Nat.le_refl _)⟩)
      else (replChar, ⟨b1 :: rest2, Nat.le_refl _⟩)
    | [] => (replChar, ⟨[], Nat.le_refl _⟩)
  else if b0 < 240 then
    match rest with
    | b1 :: b2 :: rest3 =>
      if isCont b1 && isCont b2 then
        (mkLossyChar ((b0 - 224) * 4096 + (b1 - 128) * 64 + (b2 - 128)),
         ⟨rest3, by simp only [List.length_cons]; omega⟩)
      else (replChar, ⟨b1 :: b2 :: rest3, Nat.le_refl _⟩)
    | other => (replChar, ⟨[], by simp⟩)
  else
    match rest with
    | b1 :: b2 :: b3 :: rest4 =>
      if isCont b1 && isCont b2 && isCont b3 then
        (mkLossyChar ((b0 - 240) * 262144 + (b1 - 128) * 4096 +
            (b2 - 128) * 64 + (b3 - 128)),
         ⟨rest4, by simp only [List.length_cons]; omega⟩)
      else (replChar, ⟨b1 :: b2 :: b3 :: rest4, Nat.le_refl _⟩)
    | other => (replChar, ⟨[], by simp⟩)

/-- Fuel-indexed UTF-8 decoding loop: each step consumes at least one byte,
so `bytes.length` fuel always suffices; the fuel only makes the structural
recursion explicit. -/
def utf8LossyF : Nat → List Nat → List Char
  | 0, _ => []
  | _, [] => []
  | fuel + 1, b0 :: rest =>
    let p := utf8Step b0 rest
    p.1 :: utf8LossyF fuel p.2.1

/-- Permissive UTF-8 decoding (models `String::from_utf8_lossy`): valid
sequences decode to their scalar; malformed bytes yield U+FFFD.  On valid
UTF-8 this is the exact inverse of `utf8Encode`, which is the only
behavior the round-trip proofs rely on. -/
def utf8Lossy (l : List Nat) : List Char := utf8LossyF l.length l

/-- Opaque 16-byte identifier, read and written verbatim (`type Guid = [u8; 16]`). -/
abbrev Guid := List Nat

/-- Read a `Guid` (16 raw bytes). -/
def Guid.read (s : List Nat) : Except Err (Guid × List Nat) := readBytes 16 s

/-- Write a `Guid` verbatim (`write_all`). -/
def Guid.write (g : Guid) : List Nat := g

/-- Source `struct NameIndexFlagged(pub u32, pub Option<u32>)`: a 32-bit
name-table index plus an optional 32-bit instance number. -/
structure NameIndexFlagged where
  index : Nat
  num : Option Nat
deriving DecidableEq, Repr

/-- Decode a `NameIndexFlagged`.  The source tests `n & 0x80000000 != 0`
(equivalently `2^31 ≤ n` for a `u32`) and masks the index with
`n << 1 >> 1`, which on `u32` is `n % 2^31`. -/
def NameIndexFlagged.read (s : List Nat) :
    Except Err (NameIndexFlagged × List Nat) := do
  let (n, s) ← readU32 s
  if 2147483648 ≤ n then do
    let (flag, s) ← readU32 s
    .ok (⟨n % 2147483648, some flag⟩, s)
  else
    .ok (⟨n, none⟩, s)

/-- Encode a `NameIndexFlagged`.  `self.0 | 0x80000000` on a `u32` equals
`if index < 2^31 then index + 2^31 else index`. -/
def NameIndexFlagged.write (v : NameIndexFlagged) : List Nat :=
  match v.num with
  | some flag =>
      writeU32 (if v.index < 2147483648 then v.index + 2147483648 else v.index) ++
        writeU32 flag
  | none => writeU32 v.index

/-- Source `struct ExportPath`: three `NameIndexFlagged` values. -/
structure ExportPath where
  object_path : NameIndexFlagged
  package_path : NameIndexFlagged
  asset_class : NameIndexFlagged
deriving DecidableEq, Repr

/-- Decode an `ExportPath` (three `NameIndexFlagged` in order). -/
def ExportPath.read (s : List Nat) : Except Err (ExportPath × List Nat) := do
  let (op, s) ← NameIndexFlagged.read s
  let (pp, s) ← NameIndexFlagged.read s
  let (ac, s) ← NameIndexFlagged.read s
  .ok (⟨op, pp, ac⟩, s)

/-- Encode an `ExportPath`. -/
def ExportPath.write (e : ExportPath) : List Nat :=
  e.object_path.write ++ e.package_path.write ++ e.asset_class.write

/-- Source `enum Type` (named `Ty` here because `Type` is reserved in Lean):
the closed 7-value tag enumeration stored in `Pair`s. -/
inductive Ty where
  | ansiString
  | wideString
  | numberlessName
  | name
  | numberlessExportPath
  | exportPath
  | localizedText
deriving DecidableEq, Repr

/-- Numeric value of a `Ty` (the `Type as u32` casts: 0..=6). -/
def Ty.toU32 : Ty → Nat
  | .ansiString => 0
  | .wideString => 1
  | .numberlessName => 2
  | .name => 3
  | .numberlessExportPath => 4
  | .exportPath => 5
  | .localizedText => 6

/-- Source `TryFrom<u32> for Type`: values other than 0..=6 fail. -/
def Ty.tryFrom (v : Nat) : Except Err Ty :=
  if v = 0 then .ok .ansiString
  else if v = 1 then .ok .wideString
  else if v = 2 then .ok .numberlessName
  else if v = 3 then .ok .name
  else if v = 4 then .ok .numberlessExportPath
  else if v = 5 then .ok .exportPath
  else if v = 6 then .ok .localizedText
  else .error .invalidTypeTag

/-- Source `struct Pair`: a name index plus a 3-bit type tag and a 29-bit
index packed into one 32-bit word.  (`NameIndex` is a plain `u32`
wrapper; it is modelled as the raw `Nat` here.) -/
structure Pair where
  name : Nat
  type_ : Ty
  index : Nat
deriving DecidableEq, Repr

/-- Decode a `Pair`.  `n << 29 >> 29` on `u32` is `n % 8`, and `n >> 3` is
`n / 8`. -/
def Pair.read (s : List Nat) : Except Err (Pair × List Nat) := do
  let (name, s) ← readU32 s
  let (n, s) ← readU32 s
  match Ty.tryFrom (n % 8) with
  | .error e => .error e
  | .ok type_ => .ok (⟨name, type_, n / 8⟩, s)

/-- Encode a `Pair`.  `(type as u32) | index << 3` on `u32`: the shifted
index has zero low bits, so the `or` is exact addition of
`type + (index * 8 % 2^32)`. -/
def Pair.write (p : Pair) : List Nat :=
  writeU32 p.name ++ writeU32 (p.type_.toU32 + p.index * 8 % 4294967296)

/-- Source `struct MapHandle`: a 64-bit descriptor with bit 63 = flag,
bits 32..47 = pair count (`u16`), bits 0..31 = pair start (`u32`). -/
structure MapHandle where
  has_numberless_keys : Bool
  num : Nat
  pair_begin : Nat
deriving DecidableEq, Repr

/-- Decode a `MapHandle`: `(n >> 63) != 0`, `(n >> 32) as u16`, `n as u32`. -/
def MapHandle.read (s : List Nat) : Except Err (MapHandle × List Nat) := do
  let (n, s) ← readU64 s
  .ok (⟨decide (n / 9223372036854775808 ≠ 0), n / 4294967296 % 65536,
        n % 4294967296⟩, s)

/-- Encode a `MapHandle`: the three bit fields are disjoint, so the `or`s
are exact addition. -/
def MapHandle.write (m : MapHandle) : List Nat :=
  writeU64 ((if m.has_numberless_keys then 9223372036854775808 else 0) +
    m.num % 65536 * 4294967296 + m.pair_begin % 4294967296)

/-- Source `struct AssetData`: one catalog entry. -/
structure AssetData where
  object_path : NameIndexFlagged
  package_path : NameIndexFlagged
  asset_class : NameIndexFlagged
  package_name : NameIndexFlagged
  asset_name : NameIndexFlagged
  tags : MapHandle
  bundle_count : Nat
  chunk_ids : List Nat
  flags : Nat
deriving DecidableEq, Repr

/-- Decode an `AssetData` record. -/
def AssetData.read (s : List Nat) : Except Err (AssetData × List Nat) := do
  let (op, s) ← NameIndexFlagged.read s
  let (pp, s) ← NameIndexFlagged.read s
  let (ac, s) ← NameIndexFlagged.read s
  let (pn, s) ← NameIndexFlagged.read s
  let (an, s) ← NameIndexFlagged.read s
  let (tags, s) ← MapHandle.read s
  let (bundle_count, s) ← readU32 s
  let (chunkCount, s) ← readU32 s
  let (chunk_ids, s) ← readArray readU32 chunkCount s
  let (flags, s) ← readU32 s
  .ok (⟨op, pp, ac, pn, an, tags, bundle_count, chunk_ids, flags⟩, s)

/-- Encode an `AssetData` record (the chunk count is recomputed as
`chunk_ids.len()`). -/
def AssetData.write (a : AssetData) : List Nat :=
  a.object_path.write ++ a.package_path.write ++ a.asset_class.write ++
    a.package_name.write ++ a.asset_name.write ++ a.tags.write ++
    writeU32 a.bundle_count ++ writeU32 a.chunk_ids.length ++
    a.chunk_ids.flatMap writeU32 ++ writeU32 a.flags

/-- Source `struct Dependencies`: the trailing dependency block. -/
structure Dependencies where
  dependencies_size : Nat
  dependencies : List Nat
  package_data_buffer_size : Nat
deriving DecidableEq, Repr

/-- Decode a `Dependencies` block. -/
def Dependencies.read (s : List Nat) : Except Err (Dependencies × List Nat) := do
  let (sz, s) ← readU64 s
  let (count, s) ← readU32 s
  let (deps, s) ← readArray readU32 count s
  let (pdbs, s) ← readU32 s
  .ok (⟨sz, deps, pdbs⟩, s)

/-- Encode a `Dependencies` block (the count is recomputed as
`dependencies.len()`). -/
def Dependencies.write (d : Dependencies) : List Nat :=
  writeU64 d.dependencies_size ++ writeU32 d.dependencies.length ++
    d.dependencies.flatMap writeU32 ++ writeU32 d.package_data_buffer_size

/-- Store framing sentinel `MAGIC_START = 0x12345679`. -/
def MAGIC_START : Nat := 0x12345679

/-- Store framing sentinel `MAGIC_END = 0x87654321`. -/
def MAGIC_END : Nat := 0x87654321

/-- Decode one localized text: a `u32` prefix holding `byte_len + 1`, that
many payload bytes, then the trailing null byte.  The source allocates
`vec![0; prefix as usize - 1]`; when the prefix is `0` the subtraction
underflows and the process aborts (modelled by `.arithUnderflow`) instead
of returning a decode error. -/
def readText (s : List Nat) : Except Err (List Char × List Nat) := do
  let (len, s) ← readU32 s
  if len = 0 then .error .arithUnderflow
  else do
    let (bytes, s) ← readBytes (len - 1) s
    let (_, s) ← readU8 s
    .ok (utf8Lossy bytes, s)

/-- Encode one localized text (`byte_len + 1` prefix, bytes, null). -/
def writeText (t : List Char) : List Nat :=
  writeU32 ((utf8Encode t).length + 1) ++ utf8Encode t ++ writeU8 0

/-- Read bytes up to (and consuming) a null terminator. -/
def readCString : List Nat → Except Err (List Nat × List Nat)
  | [] => .error .truncatedInput
  | b :: s =>
    if b = 0 then .ok ([], s)
    else do
      let (bs, s2) ← readCString s
      .ok (b :: bs, s2)

/-- Decode one null-terminated ANSI string (bytes until `0`, then
`from_utf8_lossy`). -/
def readAnsiString (s : List Nat) : Except Err (List Char × List Nat) := do
  let (bs, s) ← readCString s
  .ok (utf8Lossy bs, s)

/-- Encode one ANSI string: its UTF-8 bytes followed by a null byte. -/
def writeAnsiString (a : List Char) : List Nat := utf8Encode a ++ writeU8 0

/-- Decode one null-terminated wide string: `u16` code units until `0`, each
converted with `char::from_u32(..).unwrap_or(REPLACEMENT_CHARACTER)`. -/
def readWString : List Nat → Except Err (List Char × List Nat)
  | a :: b :: s =>
    let u := (a + 256 * b) % 65536
    if u = 0 then .ok ([], s)
    else do
      let (cs, s2) ← readWString s
      .ok (mkLossyChar u :: cs, s2)
  | _ => .error .truncatedInput

/-- Encode one wide string: each `char` is written as a single `u16`
(`c as u16`, i.e. the scalar value truncated mod 2^16), then a `0` unit. -/
def writeWString (w : List Char) : List Nat :=
  w.flatMap (fun c => writeU16 (c.toNat % 65536)) ++ writeU16 0

/-- Exclusive prefix sums: the per-string byte-offset tables written by
`Store::write` (`let mut offset = 0; { write offset; offset += len }`). -/
def exclScan (acc : Nat) : List Nat → List Nat
  | [] => []
  | x :: xs => acc :: exclScan (acc + x) xs

/-- Source `struct Store`: the deduplicated content tables.  `pair_count` is
the only header field kept in the model (the source stores it and writes
it back verbatim); every other header is recomputed on write. -/
structure Store where
  pair_count : Nat
  texts : List (List Char)
  nbl_names : List NameIndexFlagged
  names : List NameIndexFlagged
  nbl_export_paths : List ExportPath
  export_paths : List ExportPath
  ansi_strings : List (List Char)
  wide_strings : List (List Char)
  pairs : List Pair
deriving DecidableEq, Repr

/-- Decode a `Store` (`impl Readable for Store`).  The two `assert_eq!`
sentinel checks are modelled as `.malformedFraming` failures; the byte-size
headers, the two offset tables and the redundant text byte count are read
and discarded exactly as in the source, and the pair array length is the
`nbl_pair_count` header while the `pair_count` header is kept verbatim. -/
def Store.read (s : List Nat) : Except Err (Store × List Nat) := do
  let (magic, s) ← readU32 s
  if magic ≠ MAGIC_START then .error .malformedFraming
  else do
    let (nbl_names_count, s) ← readU32 s
    let (names_count, s) ← readU32 s
    let (nbl_export_path_count, s) ← readU32 s
    let (export_path_count, s) ← readU32 s
    let (texts_count, s) ← readU32 s
    let (ansi_strings_count, s) ← readU32 s
    let (wide_strings_count, s) ← readU32 s
    let (_ansi_string_bytes, s) ← readU32 s
    let (_wide_string_bytes, s) ← readU32 s
    let (nbl_pair_count, s) ← readU32 s
    let (pair_count, s) ← readU32 s
    let (_text_bytes, s) ← readU32 s
    let (texts, s) ← readArray readText texts_count s
    let (nbl_names, s) ← readArray NameIndexFlagged.read nbl_names_count s
    let (names, s) ← readArray NameIndexFlagged.read names_count s
    let (nbl_export_paths, s) ← readArray ExportPath.read nbl_export_path_count s
    let (export_paths, s) ← readArray ExportPath.read export_path_count s
    let (_ansi_string_offsets, s) ← readArray readU32 ansi_strings_count s
    let (_wide_string_offsets, s) ← readArray readU32 wide_strings_count s
    let (ansi_strings, s) ← readArray readAnsiString ansi_strings_count s
    let (wide_strings, s) ← readArray readWString wide_strings_count s
    let (pairs, s) ← readArray Pair.read nbl_pair_count s
    let (magicEnd, s) ← readU32 s
    if magicEnd ≠ MAGIC_END then .error .malformedFraming
    else
      .ok (⟨pair_count, texts, nbl_names, names, nbl_export_paths,
            export_paths, ansi_strings, wide_strings, pairs⟩, s)

/-- Encode a `Store` except for its trailing sentinel: twelve recomputed
header words plus the carried `pair_count`, then text payload, name arrays,
export-path arrays, the two recomputed offset tables, string payloads and
the pair array — exactly the write order of `impl Writable for Store`.
(The Rust byte-size headers are `u32` sums; `writeU32` applies the mask.) -/
def Store.writeBody (st : Store) : List Nat :=
  writeU32 MAGIC_START ++
  writeU32 st.nbl_names.length ++
  writeU32 st.names.length ++
  writeU32 st.nbl_export_paths.length ++
  writeU32 st.export_paths.length ++
  writeU32 st.texts.length ++
  writeU32 st.ansi_strings.length ++
  writeU32 st.wide_strings.length ++
  writeU32 (st.ansi_strings.map (fun n => (utf8Encode n).length + 1)).sum ++
  writeU32 (st.wide_strings.map (fun n => n.length + 1)).sum ++
  writeU32 st.pairs.length ++
  writeU32 st.pair_count ++
  writeU32 (st.texts.map (fun n => (utf8Encode n).length + 1 + 4)).sum ++
  st.texts.flatMap writeText ++
  st.nbl_names.flatMap NameIndexFlagged.write ++
  st.names.flatMap NameIndexFlagged.write ++
  st.nbl_export_paths.flatMap ExportPath.write ++
  st.export_paths.flatMap ExportPath.write ++
  (exclScan 0 (st.ansi_strings.map (fun n => (utf8Encode n).length + 1))).flatMap writeU32 ++
  (exclScan 0 (st.wide_strings.map (fun n => n.length + 1))).flatMap writeU32 ++
  st.ansi_strings.flatMap writeAnsiString ++
  st.wide_strings.flatMap writeWString ++
  st.pairs.flatMap Pair.write

/-- Encode a `Store`: the body followed by the trailing sentinel. -/
def Store.write (st : Store) : List Nat :=
  Store.writeBody st ++ writeU32 MAGIC_END

/-- Source `struct Names(pub indexmap::IndexSet<String>)`: the global
insertion-ordered set of unique name strings, modelled as the ordered list
of its elements. -/
abbrev Names := List (List Char)

/-- Insert a string into the ordered set: a no-op when already present,
otherwise appended at the end (the `IndexSet` insertion behavior). -/
def insertName (l : Names) (n : List Char) : Names :=
  if n ∈ l then l else l ++ [n]

/-- Read the name payloads, one per previously-read length. -/
def readNameStrings : List Nat → List Nat → Except Err (List (List Char) × List Nat)
  | [], s => .ok ([], s)
  | l :: ls, s => do
    let (bs, s) ← readBytes l s
    let (rest, s2) ← readNameStrings ls s
    .ok (utf8Lossy bs :: rest, s2)

/-- ASCII lowercasing (`str::to_ascii_lowercase`): 'A'..'Z' map to
'a'..'z'; every other character is unchanged. -/
def asciiLower (s : List Char) : List Char :=
  s.map fun c =>
    if 65 ≤ c.toNat && c.toNat ≤ 90 then Char.ofNat (c.toNat + 32) else c

/-- Modelled from the spec: the 64-bit name hash is computed by the external
`cityhasher` crate (`cityhasher::hash::<u64>`), which is not part of this
repository's sources.  The spec pins it to "a 64-bit variant of a
well-known fast string hash" matching a reference implementation
bit-for-bit with conformance fixture `hash(b"Timestamp") =
0x62701ea6363a9b97`; this is Google CityHash64 (v1.1), transcribed below
over `Nat` with explicit 64-bit wrap-around.  These are its constants. -/
def cityK0 : Nat := 0xc3a5c85c97cb3127

/-- CityHash64 constant `k1`. -/
def cityK1 : Nat := 0xb492b66fbe98f273

/-- CityHash64 constant `k2`. -/
def cityK2 : Nat := 0x9ae16a3b2f90404f

/-- CityHash64 constant `kMul` of `Hash128to64`. -/
def cityKMul : Nat := 0x9ddfea08eb382d69

/-- Truncation to 64 bits. -/
def m64 (n : Nat) : Nat := n % 0x10000000000000000

/-- 64-bit wrapping multiplication. -/
def mul64 (a b : Nat) : Nat := m64 (a * b)

/-- 64-bit wrapping addition. -/
def add64 (a b : Nat) : Nat := m64 (a + b)

/-- Bitwise xor (already closed under 64 bits for 64-bit operands). -/
def xor64 (a b : Nat) : Nat := a ^^^ b

/-- 64-bit right rotation `(v >> s) | (v << (64 - s))` for `0 < s < 64`:
the two halves occupy disjoint bit ranges, so the `or` is addition. -/
def rot64 (v s : Nat) : Nat := v / 2 ^ s + v % 2 ^ s * 2 ^ (64 - s)

/-- CityHash `ShiftMix(v) = v ^ (v >> 47)`. -/
def shiftMix (v : Nat) : Nat := v ^^^ (v / 0x800000000000)

/-- Little-endian 64-bit load at byte offset `i` (`Fetch64`). -/
def fetch64 (l : List Nat) (i : Nat) : Nat :=
  l.getD i 0 + 256 * l.getD (i + 1) 0 + 65536 * l.getD (i + 2) 0 +
  16777216 * l.getD (i + 3) 0 + 4294967296 * l.getD (i + 4) 0 +
  1099511627776 * l.getD (i + 5) 0 + 281474976710656 * l.getD (i + 6) 0 +
  72057594037927936 * l.getD (i + 7) 0

/-- Little-endian 32-bit load at byte offset `i` (`Fetch32`). -/
def fetch32 (l : List Nat) (i : Nat) : Nat :=
  l.getD i 0 + 256 * l.getD (i + 1) 0 + 65536 * l.getD (i + 2) 0 +
  16777216 * l.getD (i + 3) 0

/-- Byte swap of a 64-bit value (`bswap_64`). -/
def bswap64 (v : Nat) : Nat :=
  v % 256 * 0x100000000000000 + v / 256 % 256 * 0x1000000000000 +
  v / 65536 % 256 * 0x10000000000 + v / 16777216 % 256 * 0x100000000 +
  v / 0x100000000 % 256 * 0x1000000 + v / 0x10000000000 % 256 * 0x10000 +
  v / 0x1000000000000 % 256 * 256 + v / 0x100000000000000 % 256

/-- CityHash `HashLen16(u, v, mul)`. -/
def hashLen16mul (u v mul : Nat) : Nat :=
  let a := shiftMix (mul64 (xor64 u v) mul)
  let b := shiftMix (mul64 (xor64 v a) mul)
  mul64 b mul

/-- CityHash `HashLen16(u, v)` = `Hash128to64(uint128(u, v))`. -/
def hashLen16 (u v : Nat) : Nat := hashLen16mul u v cityKMul

/-- CityHash `HashLen0to16`. -/
def hashLen0to16 (s : List Nat) : Nat :=
  let len := s.length
  if 8 ≤ len then
    let mul := add64 cityK2 (2 * len)
    let a := add64 (fetch64 s 0) cityK2
    let b := fetch64 s (len - 8)
    let c := add64 (mul64 (rot64 b 37) mul) a
    let d := mul64 (add64 (rot64 a 25) b) mul
    hashLen16mul c d mul
  else if 4 ≤ len then
    let mul := add64 cityK2 (2 * len)
    let a := fetch32 s 0
    hashLen16mul (len + a * 8) (fetch32 s (len - 4)) mul
  else if 0 < len then
    let a := s.getD 0 0
    let b := s.getD (len / 2) 0
    let c := s.getD (len - 1) 0
    let y := a + b * 256
    let z := len + c * 4
    mul64 (shiftMix (xor64 (mul64 y cityK2) (mul64 z cityK0))) cityK2
  else cityK2

/-- CityHash `HashLen17to32`. -/
def hashLen17to32 (s : List Nat) : Nat :=
  let len := s.length
  let mul := add64 cityK2 (2 * len)
  let a := mul64 (fetch64 s 0) cityK1
  let b := fetch64 s 8
  let c := mul64 (fetch64 s (len - 8)) mul
  let d := mul64 (fetch64 s (len - 16)) cityK2
  hashLen16mul (add64 (add64 (rot64 (add64 a b) 43) (rot64 c 30)) d)
    (add64 (add64 a (rot64 (add64 b cityK2) 18)) c) mul

/-- CityHash `HashLen33to64`. -/
def hashLen33to64 (s : List Nat) : Nat :=
  let len := s.length
  let mul := add64 cityK2 (2 * len)
  let a := mul64 (fetch64 s 0) cityK2
  let b := fetch64 s 8
  let c := fetch64 s (len - 24)
  let d := fetch64 s (len - 32)
  let e := mul64 (fetch64 s 16) cityK2
  let f := mul64 (fetch64 s 24) 9
  let g := fetch64 s (len - 8)
  let h := mul64 (fetch64 s (len - 16)) mul
  let u := add64 (rot64 (add64 a g) 43) (mul64 (add64 (rot64 b 30) c) 9)
  let v := add64 (add64 (xor64 (add64 a g) d) f) 1
  let w := add64 (bswap64 (mul64 (add64 u v) mul)) h
  let x := add64 (rot64 (add64 e f) 42) c
  let y := mul64 (add64 (bswap64 (mul64 (add64 v w) mul)) g) mul
  let z := add64 (add64 e f) c
  let a2 := add64 (bswap64 (add64 (mul64 (add64 x z) mul) y)) b
  let b2 := mul64 (shiftMix (add64 (add64 (mul64 (add64 z a2) mul) d) h)) mul
  add64 b2 x

/-- CityHash `WeakHashLen32WithSeeds` on explicit words. -/
def weakHashLen32WithSeeds6 (w x y z a b : Nat) : Nat × Nat :=
  let a1 := add64 a w
  let b1 := rot64 (add64 (add64 b a1) z) 21
  let c := a1
  let a2 := add64 (add64 a1 x) y
  let b2 := add64 b1 (rot64 a2 44)
  (add64 a2 z, add64 b2 c)

/-- CityHash `WeakHashLen32WithSeeds` on 32 bytes at offset `i`. -/
def weakHashLen32WithSeeds (s : List Nat) (i : Nat) (a b : Nat) : Nat × Nat :=
  weakHashLen32WithSeeds6 (fetch64 s i) (fetch64 s (i + 8))
    (fetch64 s (i + 16)) (fetch64 s (i + 24)) a b

/-- The `do … while (len != 0)` loop of `CityHash64`, iterated a fixed
number of 64-byte rounds with the read offset advancing by 64. -/
def cityRounds :
    Nat → List Nat → Nat → Nat × Nat × Nat × (Nat × Nat) × (Nat × Nat) →
    Nat × Nat × Nat × (Nat × Nat) × (Nat × Nat)
  | 0, _, _, st => st
  | n + 1, s, off, (x, y, z, v, w) =>
    let x1 := mul64 (rot64 (add64 (add64 (add64 x y) v.1) (fetch64 s (off + 8))) 37) cityK1
    let y1 := mul64 (rot64 (add64 (add64 y v.2) (fetch64 s (off + 48))) 42) cityK1
    let x2 := xor64 x1 w.2
    let y2 := add64 y1 (add64 v.1 (fetch64 s (off + 40)))
    let z1 := mul64 (rot64 (add64 z w.1) 33) cityK1
    let v1 := weakHashLen32WithSeeds s off (mul64 v.2 cityK1) (add64 x2 w.1)
    let w1 := weakHashLen32WithSeeds s (off + 32) (add64 z1 w.2) (add64 y2 (fetch64 s (off + 16)))
    cityRounds n s (off + 64) (z1, y2, x2, v1, w1)

/-- CityHash64 over a byte string (the hash computed by
`cityhasher::hash::<u64>`; see the `cityK0` doc comment for provenance).
For inputs longer than 64 bytes the loop runs `((len - 1) & ~63) / 64`
rounds. -/
def cityHash64 (s : List Nat) : Nat :=
  let len := s.length
  if len ≤ 32 then
    if len ≤ 16 then hashLen0to16 s else hashLen17to32 s
  else if len ≤ 64 then hashLen33to64 s
  else
    let x := fetch64 s (len - 40)
    let y := add64 (fetch64 s (len - 16)) (fetch64 s (len - 56))
    let z := hashLen16 (add64 (fetch64 s (len - 48)) len) (fetch64 s (len - 24))
    let v := weakHashLen32WithSeeds s (len - 64) (m64 len) z
    let w := weakHashLen32WithSeeds s (len - 32) (add64 y cityK1) x
    let x1 := add64 (mul64 x cityK1) (fetch64 s 0)
    let (x2, y2, z2, v2, w2) := cityRounds ((len - 1) / 64) s 0 (x1, y, z, v, w)
    hashLen16 (add64 (add64 (hashLen16 v2.1 w2.1) (mul64 (shiftMix y2) cityK1)) z2)
      (add64 (hashLen16 v2.2 w2.2) x2)

/-- Source `struct AssetRegistry`: the aggregate root. -/
structure AssetRegistry where
  version : Guid
  version_int : Nat
  hash_version : Nat
  names : Names
  store : Store
  asset_data : List AssetData
  dependencies : Dependencies
deriving DecidableEq, Repr

/-- Decode an `AssetRegistry` (`impl Readable for AssetRegistry`): header,
per-name lowercase hashes (read and discarded), big-endian name lengths,
name payloads (collected into the `IndexSet`), the Store, the AssetData
array and the Dependencies block. -/
def AssetRegistry.read (s : List Nat) : Except Err (AssetRegistry × List Nat) := do
  let (version, s) ← Guid.read s
  let (version_int, s) ← readU32 s
  let (name_count, s) ← readU32 s
  let (_num_string_bytes, s) ← readU32 s
  let (hash_version, s) ← readU64 s
  let (_lowercase_hashes, s) ← readArray readU64 name_count s
  let (name_lengths, s) ← readArray readU16be name_count s
  let (nameList, s) ← readNameStrings name_lengths s
  let names := nameList.foldl insertName []
  let (store, s) ← Store.read s
  let (adCount, s) ← readU32 s
  let (asset_data, s) ← readArray AssetData.read adCount s
  let (dependencies, s) ← Dependencies.read s
  .ok (⟨version, version_int, hash_version, names, store, asset_data,
        dependencies⟩, s)

/-- Encode an `AssetRegistry` (`impl Writable for AssetRegistry`): the name
count and total byte count are recomputed from the live name table, and
each name's hash is recomputed at write time as
`cityhasher::hash(name.to_ascii_lowercase().as_bytes())`. -/
def AssetRegistry.write (r : AssetRegistry) : List Nat :=
  Guid.write r.version ++
  writeU32 r.version_int ++
  writeU32 r.names.length ++
  writeU32 (r.names.map (fun n => (utf8Encode n).length)).sum ++
  writeU64 r.hash_version ++
  r.names.flatMap (fun n => writeU64 (cityHash64 (utf8Encode (asciiLower n)))) ++
  r.names.flatMap (fun n => writeU16be (utf8Encode n).length) ++
  r.names.flatMap (fun n => utf8Encode n) ++
  Store.write r.store ++
  writeU32 r.asset_data.length ++
  r.asset_data.flatMap AssetData.write ++
  Dependencies.write r.dependencies

/-- Path components of the `typed_path` Utf8UnixPath used by `paths.rs`
(root, ".", "..", or a normal segment). -/
inductive PathComp where
  | rootDir
  | curDir
  | parentDir
  | normal (s : List Char)
deriving DecidableEq, Repr

/-- Split a character list at every '/' (keeping empty segments). -/
def splitSlash : List Char → List (List Char)
  | [] => [[]]
  | c :: rest =>
    if c = '/' then [] :: splitSlash rest
    else
      match splitSlash rest with
      | [] => [[c]]
      | g :: gs => (c :: g) :: gs

/-- Modelled from the spec: `paths.rs` delegates component iteration to the
external `typed_path` crate (spec §1's "slash-separated archive path").
Unix path components: a leading '/' yields the root component, empty and
interior "." segments are dropped, a leading "." of a relative path is kept,
and ".." is a parent component. -/
def pathComponents (p : List Char) : List PathComp :=
  let parts := splitSlash p
  let rel := (parts.filter (fun q => q ≠ [] && q ≠ ['.'])).map
      (fun q => if q = ['.', '.'] then PathComp.parentDir else PathComp.normal q)
  if p.head? = some '/' then PathComp.rootDir :: rel
  else if parts.head? = some ['.'] then PathComp.curDir :: rel
  else rel

/-- Text of one path component. -/
def renderComp : PathComp → List Char
  | .rootDir => ['/']
  | .curDir => ['.']
  | .parentDir => ['.', '.']
  | .normal s => s

/-- Text of a relative component sequence, '/'-separated. -/
def renderRel : List PathComp → List Char
  | [] => []
  | [c] => renderComp c
  | c :: c2 :: rest => renderComp c ++ '/' :: renderRel (c2 :: rest)

/-- Join the remaining components under an absolute base path
(`PakPath::new(base).join(components.as_path())`).  With no remaining
components the base is returned unchanged. -/
def joinUnder (base : List Char) (l : List PathComp) : List Char :=
  if l = [] then base else base ++ '/' :: renderRel l

/-- ASCII case-insensitive string equality (the `unicase::eq_ascii` calls). -/
def eqAscii (a b : List Char) : Bool := asciiLower a == asciiLower b

/-- Literal "Engine". -/
def engineStr : List Char := "Engine".data

/-- Literal "Content". -/
def contentStr : List Char := "Content".data

/-- Literal "Plugins". -/
def pluginsStr : List Char := "Plugins".data

/-- The `loop` in `pak_path_to_game_path`'s Plugins arm: remember the last
normal segment until a case-insensitive "Content" segment, then produce
`/<plugin>/<rest>`; anything else (including running out of components)
yields `None`. -/
def pluginLoop : Option (List Char) → List PathComp → Option (List Char)
  | _, [] => none
  | last, .normal c :: rest =>
    if eqAscii c contentStr then
      last.map (fun plugin => joinUnder ('/' :: plugin) rest)
    else pluginLoop (some c) rest
  | _, _ => none

/-- Source `pak_path_to_game_path` (`paths.rs`): maps an archive path to the
logical game path (`/Engine/...`, `/<plugin>/...` or `/Game/...`), or
`None` when the path has no recognized mount root. -/
def pakPathToGamePath (p : List Char) : Option (List Char) :=
  match pathComponents p with
  | .normal c :: rest =>
    if eqAscii c engineStr then
      match rest with
      | .normal c2 :: rest2 =>
        if eqAscii c2 contentStr then some (joinUnder "/Engine".data rest2)
        else if eqAscii c2 pluginsStr then pluginLoop none rest2
        else none
      | _ => none
    else
      match rest with
      | .normal c2 :: rest2 =>
        if eqAscii c2 contentStr then some (joinUnder "/Game".data rest2)
        else none
      | _ => none
  | _ => none

/-- Modelled from the spec's external path type (`Utf8UnixPath::parent`):
drop the final component; the root alone and the empty path have no
parent. -/
def parentPath (p : List Char) : Option (List Char) :=
  match pathComponents p with
  | [] => none
  | [.rootDir] => none
  | comps =>
      some (match comps.dropLast with
        | [] => []
        | [.rootDir] => ['/']
        | .rootDir :: c :: rest => '/' :: renderRel (c :: rest)
        | other => renderRel other)

/-- Modelled from the spec: the export base record exposed by the external
asset-parsing collaborator (spec §6: `exports: sequence of {outer_ref,
object_name, object_flags, class_ref}`). -/
structure ExportRec where
  outer_index : Int
  object_flags : Nat
  object_name : List Char
  class_index : Int
deriving DecidableEq, Repr

/-- Modelled from the spec: the parsed-asset view consumed by `populate`
(spec §6), with the import table backing `resolve_import`. -/
structure ParsedAsset where
  exports : List ExportRec
  imports : List (List Char)
deriving DecidableEq, Repr

/-- Modelled from the spec's external flag enumeration: the
`EObjectFlags::RF_PUBLIC` bit tested by `get_root_export` has value 0x1. -/
def RF_PUBLIC : Nat := 1

/-- Per-export condition of `get_root_export` in `asset_registry.rs`:
`outer_index.index == 0 && object_flags.contains(RF_PUBLIC)`. -/
def isRootExport (e : ExportRec) : Bool :=
  e.outer_index == 0 && e.object_flags % 2 == 1

/-- Source `get_root_export` (`asset_registry.rs`, the version `populate`
calls): position of the first export whose outer reference is null AND
whose flags contain `RF_PUBLIC`; `None` when no export qualifies.  (The
source wraps the position as `PackageIndex::from_export(i)` and `populate`
immediately resolves it back to the same export via `get_export`.) -/
def getRootExport (asset : ParsedAsset) : Option Nat :=
  asset.exports.findIdx? isRootExport

/-- Modelled from the spec: the external `resolve_import` capability
(`Asset::get_import`): a reference is an import iff its index is negative,
resolving to `imports[-index - 1]`; otherwise `NotFound`. -/
def getImport (asset : ParsedAsset) (idx : Int) : Option (List Char) :=
  if idx < 0 then asset.imports[(-idx - 1).toNat]? else none

/-- Failure modes of `populate`.  The first four model the `anyhow` contexts
"failed to get game path", "no root export", "no path parent", "bad import
ref"; `indexPanic` models the process abort when the duplicate scan indexes
the name table out of bounds (`self.names[a.object_path]` on a bad index). -/
inductive PopErr where
  | noGamePath
  | noRootExport
  | noPathParent
  | badImportRef
  | indexPanic
deriving DecidableEq, Repr

/-- Position of a string in the name table (`IndexSet::get_index_of`). -/
def indexOfName : Names → List Char → Option Nat
  | [], _ => none
  | x :: xs, n => if x = n then some 0 else (indexOfName xs n).map (· + 1)

/-- Source `AssetRegistry::get_name`: intern-or-lookup.  Present strings
return their index; absent strings are appended and the new last index is
returned (always without an instance number). -/
def getName (names : Names) (n : List Char) : NameIndexFlagged × Names :=
  match indexOfName names n with
  | some i => (⟨i, none⟩, names)
  | none => (⟨names.length, none⟩, names ++ [n])

/-- The duplicate scan in `populate`:
`self.asset_data.iter().find(|a| self.names[a.object_path] == object_path_str)`.
Indexing the name table with an out-of-range record aborts (`indexPanic`);
otherwise the scan reports whether some record's object path resolves to
the target string. -/
def findDup (names : Names) : List AssetData → List Char → Except PopErr Bool
  | [], _ => .ok false
  | a :: rest, target =>
    match names[a.object_path.index]? with
    | none => .error .indexPanic
    | some s => if s = target then .ok true else findDup names rest target

/-- Literal "_C". -/
def cSuffix : List Char := "_C".data

/-- Literal "GeneratedClass". -/
def generatedClassSuffix : List Char := "GeneratedClass".data

/-- Rust `str::strip_suffix`: remove the exact trailing occurrence. -/
def stripSuffix (s suf : List Char) : Option (List Char) :=
  if suf.isSuffixOf s then some (s.take (s.length - suf.length)) else none

/-- Source `AssetRegistry::populate`: derive the five strings from the
logical path and the root export, no-op on an existing object path,
otherwise intern and append one AssetData record, plus a second
suffix-stripped record when the asset name and object path end in "_C" and
the class ends in "GeneratedClass". -/
def populate (reg : AssetRegistry) (path : List Char) (asset : ParsedAsset) :
    Except PopErr AssetRegistry := do
  let game_path ← match pakPathToGamePath path with
    | some g => Except.ok g
    | none => Except.error .noGamePath
  let rootIdx ← match getRootExport asset with
    | some i => Except.ok i
    | none => Except.error .noRootExport
  let root ← match asset.exports[rootIdx]? with
    | some e => Except.ok e
    | none => Except.error .indexPanic
  let asset_name_str := root.object_name
  let package_path_str ← match parentPath game_path with
    | some p => Except.ok p
    | none => Except.error .noPathParent
  let package_name_str := game_path
  let object_path_str := game_path ++ '.' :: asset_name_str
  let asset_class_str ← match getImport asset root.class_index with
    | some n => Except.ok n
    | none => Except.error .badImportRef
  let dup ← findDup reg.names reg.asset_data object_path_str
  if dup then .ok reg
  else
    let (object_path, names1) := getName reg.names object_path_str
    let (package_path, names2) := getName names1 package_path_str
    let (asset_class, names3) := getName names2 asset_class_str
    let (package_name, names4) := getName names3 package_name_str
    let (asset_name, names5) := getName names4 asset_name_str
    let rec1 : AssetData := ⟨object_path, package_path, asset_class,
      package_name, asset_name, ⟨true, 0, 0⟩, 0, [], 0⟩
    let reg1 : AssetRegistry := { reg with
      names := names5
      asset_data := reg.asset_data ++ [rec1] }
    match stripSuffix asset_name_str cSuffix, stripSuffix object_path_str cSuffix,
        stripSuffix asset_class_str generatedClassSuffix with
    | some an2s, some op2s, some ac2s =>
      let (op2, namesA) := getName reg1.names op2s
      let (ac2, namesB) := getName namesA ac2s
      let (an2, namesC) := getName namesB an2s
      let rec2 : AssetData := ⟨op2, package_path, ac2, package_name, an2,
        ⟨true, 0, 0⟩, 0, [], 0⟩
      .ok { reg1 with
        names := namesC
        asset_data := reg1.asset_data ++ [rec2] }
    | _, _, _ => .ok reg1

/-- Bound of an optional `u32` instance number (mirrors the Rust `Option<u32>`
type bound). -/
def wfNum : Option Nat → Bool
  | none => true
  | some f => f < 4294967296

/-- Well-formed `NameIndexFlagged`: index below 2^31 (the continuation bit
is never part of a decoded index) and `u32`-bounded instance number. -/
def NameIndexFlagged.wf (v : NameIndexFlagged) : Bool :=
  v.index < 2147483648 && wfNum v.num

/-- Well-formed `ExportPath`: all three references well-formed. -/
def ExportPath.wf (e : ExportPath) : Bool :=
  e.object_path.wf && e.package_path.wf && e.asset_class.wf

/-- Well-formed `Pair`: `u32` name index and 29-bit value index. -/
def Pair.wf (p : Pair) : Bool :=
  p.name < 4294967296 && p.index < 536870912

/-- Well-formed `MapHandle` (mirrors the `u16`/`u32` field types). -/
def MapHandle.wf (m : MapHandle) : Bool :=
  m.num < 65536 && m.pair_begin < 4294967296

/-- ANSI strings survive the null-terminated encoding iff they contain no
NUL character. -/
def wfAnsi (s : List Char) : Bool := s.all (fun c => c.toNat ≠ 0)

/-- Wide strings survive the `c as u16` encoding iff every scalar is a
nonzero 16-bit value. -/
def wfWide (s : List Char) : Bool := s.all (fun c => c.toNat ≠ 0 && c.toNat < 65536)

/-- A text's `byte_len + 1` prefix must fit in its `u32` field. -/
def wfText (t : List Char) : Bool := (utf8Encode t).length + 1 < 4294967296

/-- Well-formed `Store`: every collection length fits its `u32` count
header, `pair_count` fits its `u32` word, and all elements are
well-formed. -/
def Store.wf (st : Store) : Bool :=
  st.pair_count < 4294967296 &&
  st.texts.length < 4294967296 && st.nbl_names.length < 4294967296 &&
  st.names.length < 4294967296 && st.nbl_export_paths.length < 4294967296 &&
  st.export_paths.length < 4294967296 && st.ansi_strings.length < 4294967296 &&
  st.wide_strings.length < 4294967296 && st.pairs.length < 4294967296 &&
  st.texts.all wfText && st.nbl_names.all NameIndexFlagged.wf &&
  st.names.all NameIndexFlagged.wf && st.nbl_export_paths.all ExportPath.wf &&
  st.export_paths.all ExportPath.wf && st.ansi_strings.all wfAnsi &&
  st.wide_strings.all wfWide && st.pairs.all Pair.wf

/-- Well-formed `AssetData` (field bounds mirroring the Rust types). -/
def AssetData.wf (a : AssetData) : Bool :=
  a.object_path.wf && a.package_path.wf && a.asset_class.wf &&
  a.package_name.wf && a.asset_name.wf && a.tags.wf &&
  a.bundle_count < 4294967296 && a.chunk_ids.length < 4294967296 &&
  a.chunk_ids.all (· < 4294967296) && a.flags < 4294967296

/-- Well-formed `Dependencies` (field bounds mirroring the Rust types). -/
def Dependencies.wf (d : Dependencies) : Bool :=
  d.dependencies_size < 18446744073709551616 &&
  d.dependencies.length < 4294967296 &&
  d.dependencies.all (· < 4294967296) && d.package_data_buffer_size < 4294967296

/-- A name survives its big-endian `u16` length prefix iff its UTF-8 byte
length is below 2^16. -/
def wfName (n : List Char) : Bool := (utf8Encode n).length < 65536

/-- Well-formed `AssetRegistry`: a 16-byte version Guid, `u32`/`u64` scalar
bounds, a duplicate-free name table of short names, and well-formed
Store/AssetData/Dependencies. -/
def AssetRegistry.wf (r : AssetRegistry) : Bool :=
  r.version.length == 16 && r.version_int < 4294967296 &&
  r.hash_version < 18446744073709551616 && r.names.length < 4294967296 &&
  decide r.names.Nodup && r.names.all wfName &&
  r.store.wf && r.asset_data.length < 4294967296 &&
  r.asset_data.all AssetData.wf && r.dependencies.wf

/-- Value of the 32-bit word at byte offset `4 * k` of a stream (used to
talk about individual Store header words). -/
def nth32 (l : List Nat) (k : Nat) : Option Nat :=
  match readU32 (l.drop (4 * k)) with
  | .ok (v, _) => some v
  | .error _ => none

/-- Store with every collection empty and `pair_count = 0`. -/
def emptyStore : Store := ⟨0, [], [], [], [], [], [], [], []⟩

/-- Dependencies block with no entries. -/
def emptyDeps : Dependencies := ⟨0, [], 0⟩

/-- Registry with no names, no assets and empty store. -/
def emptyReg : AssetRegistry :=
  ⟨List.replicate 16 0, 1, 1, [], emptyStore, [], emptyDeps⟩

/-- Small well-formed sample store exercising every table. -/
def sampleStore : Store :=
  ⟨3, ["hi".data], [⟨5, none⟩, ⟨7, some 9⟩], [⟨1, some 2⟩],
   [⟨⟨1, none⟩, ⟨2, some 3⟩, ⟨4, none⟩⟩], [], ["abc".data], ["wide".data],
   [⟨2, .name, 11⟩, ⟨0, .localizedText, 1⟩]⟩

/-- Small well-formed sample registry. -/
def sampleReg : AssetRegistry :=
  ⟨List.replicate 16 7, 2, 1, ["Timestamp".data, "Foo".data], sampleStore,
   [⟨⟨0, none⟩, ⟨1, some 4⟩, ⟨0, none⟩, ⟨1, none⟩, ⟨0, none⟩,
     ⟨true, 2, 5⟩, 3, [9, 8], 4⟩], ⟨10, [1, 2, 3], 6⟩⟩

/-- Registry whose store holds one wide string consisting of the single
astral character U+10000; every redundant field in the model
(`pair_count`) is consistent with its live collection. -/
def astralReg : AssetRegistry :=
  ⟨List.replicate 16 0, 1, 1, [],
   ⟨0, [], [], [], [], [], [], [[Char.ofNat 65536]], []⟩, [], emptyDeps⟩

/-- Store holding one wide string consisting of a single NUL character
(scalar value 0, which is ≤ 0xFFFF). -/
def nulWideStore : Store :=
  ⟨0, [], [], [], [], [], [], [['\x00']], []⟩

/-- Store differing from `emptyStore` only in the carried `pair_count`
header field. -/
def pcStore : Store := ⟨7, [], [], [], [], [], [], [], []⟩

/-- Store byte image whose single localized text has length prefix 0: the
thirteen header words (texts count = 1, all other counts 0) followed by
the text's zero `u32` prefix. -/
def zeroTextStoreBytes : List Nat :=
  writeU32 MAGIC_START ++ writeU32 0 ++ writeU32 0 ++ writeU32 0 ++
  writeU32 0 ++ writeU32 1 ++ writeU32 0 ++ writeU32 0 ++ writeU32 0 ++
  writeU32 0 ++ writeU32 0 ++ writeU32 0 ++ writeU32 0 ++ writeU32 0

/-- Parsed asset with a root export named `BP_Foo_C` of class
`BP_Foo_GeneratedClass` (the Blueprint scenario of the spec). -/
def bpAsset : ParsedAsset :=
  ⟨[⟨0, 1, "BP_Foo_C".data, -1⟩], ["BP_Foo_GeneratedClass".data]⟩

/-- Archive path mapping to the logical path `/Game/BP_Foo`. -/
def bpPath : List Char := "MyGame/Content/BP_Foo".data

/-- Parsed asset whose only export has a null outer reference but lacks the
`RF_PUBLIC` flag. -/
def noPubAsset : ParsedAsset := ⟨[⟨0, 0, "A".data, -1⟩], ["C".data]⟩

/-- Parsed asset with a plain (non-Blueprint) public root export. -/
def plainAsset : ParsedAsset := ⟨[⟨0, 1, "Tex".data, -1⟩], ["Texture2D".data]⟩

/-- Registry obtained by populating the empty registry with the Blueprint
sample asset (a concrete successful `populate` result). -/
def bpResultReg : AssetRegistry :=
  match populate emptyReg bpPath bpAsset with
  | .ok r => r
  | .error _ => emptyReg


theorem bind_ok {ε α β : Type} (a : α) (f : α → Except ε β) :
    (Except.ok a : Except ε α) >>= f = f a := rfl

theorem bind_err {ε α β : Type} (e : ε) (f : α → Except ε β) :
    (Except.error e : Except ε α) >>= f = .error e := rfl

theorem readU32_writeU32 (v : Nat) (r : List Nat) :
    readU32 (writeU32 v ++ r) = .ok (v % 4294967296, r) := by
  simp only [writeU32, List.cons_append, List.nil_append]
  rw [readU32]
  simp only [Except.ok.injEq, Prod.mk.injEq]
  exact ⟨by omega, trivial⟩

theorem readU64_writeU64 (v : Nat) (r : List Nat) :
    readU64 (writeU64 v ++ r) = .ok (v % 18446744073709551616, r) := by
  simp only [writeU64, writeU32, List.cons_append, List.nil_append]
  rw [readU64]
  simp only [Except.ok.injEq, Prod.mk.injEq]
  exact ⟨by omega, trivial⟩

theorem readU16be_writeU16be (v : Nat) (r : List Nat) :
    readU16be (writeU16be v ++ r) = .ok (v % 65536, r) := by
  simp only [writeU16be, List.cons_append, List.nil_append]
  rw [readU16be]
  simp only [Except.ok.injEq, Prod.mk.injEq]
  exact ⟨by omega, trivial⟩

theorem readBytes_exact (bs r : List Nat) :
    readBytes bs.length (bs ++ r) = .ok (bs, r) := by
  rw [readBytes, if_pos (by simp)]
  rw [List.take_left, List.drop_left]

theorem utf8LossyF_nil (f : Nat) : utf8LossyF f [] = [] := by
  cases f <;> rfl

theorem utf8LossyF_encChar (f : Nat) (c : Char) (t : List Nat) :
    utf8LossyF (f + 1) (utf8EncodeCharNat c.toNat ++ t) = c :: utf8LossyF f t := by
  have hv : c.toNat.isValidChar := c.valid
  have hlt : c.toNat < 1114112 := by
    rcases hv with h | ⟨_, h2⟩ <;> omega
  have hvc : mkLossyChar c.toNat = c := by
    rw [mkLossyChar, if_pos hv, Char.ofNat_toNat]
  set n := c.toNat with hn
  by_cases h1 : n < 128
  · rw [show utf8EncodeCharNat n = [n] from by rw [utf8EncodeCharNat, if_pos h1]]
    simp only [List.cons_append, List.nil_append]
    rw [utf8LossyF]
    simp only [utf8Step, if_pos h1, hvc]
  · by_cases h2 : n < 2048
    · rw [show utf8EncodeCharNat n = [192 + n / 64, 128 + n % 64] from by
        rw [utf8EncodeCharNat, if_neg h1, if_pos h2]]
      simp only [List.cons_append, List.nil_append]
      rw [utf8LossyF]
      simp only [utf8Step]
      rw [if_neg (by omega), if_neg (by omega), if_pos (by omega)]
      rw [if_pos (show isCont (128 + n % 64) = true by
        simp only [isCont, Bool.and_eq_true, decide_eq_true_eq]; omega)]
      have e1 : (192 + n / 64 - 192) * 64 + (128 + n % 64 - 128) = n := by omega
      simp only [e1, hvc]
    · by_cases h3 : n < 65536
      · rw [show utf8EncodeCharNat n = [224 + n / 4096, 128 + n / 64 % 64, 128 + n % 64] from by
          rw [utf8EncodeCharNat, if_neg h1, if_neg h2, if_pos h3]]
        simp only [List.cons_append, List.nil_append]
        rw [utf8LossyF]
        simp only [utf8Step]
        rw [if_neg (by omega), if_neg (by omega), if_neg (by omega), if_pos (by omega)]
        rw [if_pos (show (isCont (128 + n / 64 % 64) && isCont (128 + n % 64)) = true by
          simp only [isCont, Bool.and_eq_true, decide_eq_true_eq]
          refine ⟨⟨?_, ?_⟩, ?_, ?_⟩ <;> omega)]
        have e1 : (224 + n / 4096 - 224) * 4096 + (128 + n / 64 % 64 - 128) * 64 +
            (128 + n % 64 - 128) = n := by omega
        simp only [e1, hvc]
      · rw [show utf8EncodeCharNat n =
            [240 + n / 262144, 128 + n / 4096 % 64, 128 + n / 64 % 64, 128 + n % 64] from by
          rw [utf8EncodeCharNat, if_neg h1, if_neg h2, if_neg h3]]
        simp only [List.cons_append, List.nil_append]
        rw [utf8LossyF]
        simp only [utf8Step]
        rw [if_neg (by omega), if_neg (by omega), if_neg (by omega), if_neg (by omega)]
        rw [if_pos (show (isCont (128 + n / 4096 % 64) && isCont (128 + n / 64 % 64) &&
            isCont (128 + n % 64)) = true by
          simp only [isCont, Bool.and_eq_true, decide_eq_true_eq]
          refine ⟨⟨⟨?_, ?_⟩, ?_, ?_⟩, ?_, ?_⟩ <;> omega)]
        have e1 : (240 + n / 262144 - 240) * 262144 + (128 + n / 4096 % 64 - 128) * 4096 +
            (128 + n / 64 % 64 - 128) * 64 + (128 + n % 64 - 128) = n := by omega
        simp only [e1, hvc]

theorem utf8LossyF_enc : ∀ (s : List Char) (f : Nat), s.length ≤ f →
    utf8LossyF f (utf8Encode s) = s := by
  intro s
  induction s with
  | nil => intro f _; simp only [utf8Encode, List.flatMap_nil, utf8LossyF_nil]
  | cons c cs ih =>
    intro f hf
    match f, hf with
    | f + 1, hf =>
      rw [show utf8Encode (c :: cs) = utf8EncodeCharNat c.toNat ++ utf8Encode cs from by
        simp [utf8Encode]]
      rw [utf8LossyF_encChar]
      rw [ih f (by simpa using Nat.lt_succ_iff.mp (Nat.lt_of_lt_of_le (by simp) hf))]

theorem utf8Encode_length_ge (s : List Char) : s.length ≤ (utf8Encode s).length := by
  induction s with
  | nil => simp [utf8Encode]
  | cons c cs ih =>
    have : 1 ≤ (utf8EncodeCharNat c.toNat).length := by
      rw [utf8EncodeCharNat]
      split_ifs <;> simp
    simp only [utf8Encode, List.flatMap_cons, List.length_append, List.length_cons]
    simp only [utf8Encode] at ih
    omega

theorem utf8Lossy_enc (s : List Char) : utf8Lossy (utf8Encode s) = s :=
  utf8LossyF_enc s _ (utf8Encode_length_ge s)



theorem mkLossyChar_toNat (c : Char) : mkLossyChar c.toNat = c := by
  rw [mkLossyChar, if_pos (show c.toNat.isValidChar from c.valid), Char.ofNat_toNat]

theorem utf8Encode_ne_zero (s : List Char) (h : wfAnsi s = true) :
    ¬ 0 ∈ utf8Encode s := by
  induction s with
  | nil => simp [utf8Encode]
  | cons c cs ih =>
    simp only [wfAnsi, List.all_cons, Bool.and_eq_true, decide_eq_true_eq] at h
    have hc : c.toNat ≠ 0 := h.1
    have ihh := ih h.2
    simp only [utf8Encode, List.flatMap_cons, List.mem_append] at *
    rintro (hm | hm)
    · rw [utf8EncodeCharNat] at hm
      split_ifs at hm with h1 h2 h3 <;> simp at hm <;> omega
    · exact ihh hm

theorem readCString_append (bs : List Nat) (h : ¬ 0 ∈ bs) (r : List Nat) :
    readCString (bs ++ 0 :: r) = .ok (bs, r) := by
  induction bs with
  | nil =>
    rw [List.nil_append, readCString, if_pos rfl]
  | cons b bs ih =>
    have hb : ¬ b = 0 := by simp at h; omega
    rw [List.cons_append, readCString, if_neg hb,
      ih (by simp at h ⊢; exact fun hh => h.2 hh)]
    rfl

theorem readAnsiString_write (a : List Char) (h : wfAnsi a = true) (r : List Nat) :
    readAnsiString (writeAnsiString a ++ r) = .ok (a, r) := by
  simp only [readAnsiString, writeAnsiString, writeU8, Nat.zero_mod,
    List.append_assoc, List.cons_append, List.nil_append,
    readCString_append _ (utf8Encode_ne_zero a h), bind_ok, utf8Lossy_enc]

theorem readWString_write (w : List Char) (h : wfWide w = true) (r : List Nat) :
    readWString (writeWString w ++ r) = .ok (w, r) := by
  induction w with
  | nil =>
    rw [show writeWString [] ++ r = 0 :: 0 :: r from by simp [writeWString, writeU16]]
    rw [readWString]
    norm_num
  | cons c cs ih =>
    simp only [wfWide, List.all_cons, Bool.and_eq_true, decide_eq_true_eq] at h
    obtain ⟨⟨hc0, hc16⟩, hrest⟩ := h
    rw [show writeWString (c :: cs) ++ r =
        (c.toNat % 65536) % 256 :: (c.toNat % 65536) / 256 % 256 :: (writeWString cs ++ r) from by
      simp only [writeWString, List.flatMap_cons, writeU16, List.append_assoc,
        List.cons_append, List.nil_append]]
    rw [readWString]
    have e1 : ((c.toNat % 65536) % 256 + 256 * ((c.toNat % 65536) / 256 % 256)) % 65536
        = c.toNat := by omega
    rw [e1, if_neg hc0, ih hrest]
    simp only [bind_ok, mkLossyChar_toNat]

theorem nif_read_write (v : NameIndexFlagged) (h : v.wf = true)
    (r : List Nat) : NameIndexFlagged.read (v.write ++ r) = .ok (v, r) := by
  obtain ⟨idx, num⟩ := v
  simp only [NameIndexFlagged.wf, Bool.and_eq_true, decide_eq_true_eq] at h
  obtain ⟨hidx, hnum⟩ := h
  cases num with
  | none =>
    simp only [NameIndexFlagged.read, NameIndexFlagged.write, readU32_writeU32,
      bind_ok, Nat.mod_eq_of_lt (show idx < 4294967296 by omega),
      if_neg (show ¬ 2147483648 ≤ idx from by omega)]
  | some flag =>
    simp only [wfNum, decide_eq_true_eq] at hnum
    have hw : NameIndexFlagged.write ⟨idx, some flag⟩ =
        writeU32 (idx + 2147483648) ++ writeU32 flag := by
      rw [NameIndexFlagged.write]
      simp only [if_pos hidx]
    rw [hw, NameIndexFlagged.read, List.append_assoc, readU32_writeU32, bind_ok]
    simp only []
    have m1 : (idx + 2147483648) % 4294967296 = idx + 2147483648 := by omega
    rw [m1, if_pos (show 2147483648 ≤ idx + 2147483648 from by omega),
      readU32_writeU32, bind_ok]
    simp only []
    have m2 : (idx + 2147483648) % 2147483648 = idx := by omega
    have m3 : flag % 4294967296 = flag := by omega
    rw [m2, m3]

theorem exportPath_read_write (e : ExportPath) (h : e.wf = true) (r : List Nat) :
    ExportPath.read (e.write ++ r) = .ok (e, r) := by
  obtain ⟨op, pp, ac⟩ := e
  simp only [ExportPath.wf, Bool.and_eq_true] at h
  obtain ⟨⟨h1, h2⟩, h3⟩ := h
  simp only [ExportPath.read, ExportPath.write, List.append_assoc,
    nif_read_write _ h1, nif_read_write _ h2,
    nif_read_write _ h3, bind_ok]

theorem Ty.tryFrom_toU32 (t : Ty) : Ty.tryFrom t.toU32 = .ok t := by
  cases t <;> rfl

theorem pair_read_write (p : Pair) (h : p.wf = true) (r : List Nat) :
    Pair.read (p.write ++ r) = .ok (p, r) := by
  obtain ⟨nm, t, idx⟩ := p
  simp only [Pair.wf, Bool.and_eq_true, decide_eq_true_eq] at h
  obtain ⟨hnm, hidx⟩ := h
  have ht : t.toU32 < 8 := by cases t <;> decide
  have e1 : (t.toU32 + idx * 8 % 4294967296) % 4294967296 % 8 = t.toU32 := by omega
  have e2 : (t.toU32 + idx * 8 % 4294967296) % 4294967296 / 8 = idx := by omega
  simp only [Pair.read, Pair.write, List.append_assoc, readU32_writeU32, bind_ok,
    e1, e2, Ty.tryFrom_toU32, Nat.mod_eq_of_lt (show nm < 4294967296 from hnm)]

theorem mapHandle_read_write (m : MapHandle) (h : m.wf = true) (r : List Nat) :
    MapHandle.read (m.write ++ r) = .ok (m, r) := by
  obtain ⟨has, num, pb⟩ := m
  simp only [MapHandle.wf, Bool.and_eq_true, decide_eq_true_eq] at h
  obtain ⟨hnum, hpb⟩ := h
  cases has with
  | false =>
    have hw : MapHandle.write ⟨false, num, pb⟩ =
        writeU64 (num % 65536 * 4294967296 + pb % 4294967296) := by
      rw [MapHandle.write]
      norm_num
    rw [hw, MapHandle.read, readU64_writeU64, bind_ok]
    simp only []
    have d1 : (num % 65536 * 4294967296 + pb % 4294967296) %
        18446744073709551616 / 9223372036854775808 = 0 := by omega
    have d2 : (num % 65536 * 4294967296 + pb % 4294967296) %
        18446744073709551616 / 4294967296 % 65536 = num := by omega
    have d3 : (num % 65536 * 4294967296 + pb % 4294967296) %
        18446744073709551616 % 4294967296 = pb := by omega
    rw [d1, d2, d3]
    norm_num
  | true =>
    have hw : MapHandle.write ⟨true, num, pb⟩ =
        writeU64 (9223372036854775808 + num % 65536 * 4294967296 + pb % 4294967296) := by
      rw [MapHandle.write]
      norm_num
    rw [hw, MapHandle.read, readU64_writeU64, bind_ok]
    simp only []
    have d1 : (9223372036854775808 + num % 65536 * 4294967296 + pb % 4294967296) %
        18446744073709551616 / 9223372036854775808 = 1 := by omega
    have d2 : (9223372036854775808 + num % 65536 * 4294967296 + pb % 4294967296) %
        18446744073709551616 / 4294967296 % 65536 = num := by omega
    have d3 : (9223372036854775808 + num % 65536 * 4294967296 + pb % 4294967296) %
        18446744073709551616 % 4294967296 = pb := by omega
    rw [d1, d2, d3]
    norm_num


theorem readText_writeText (t : List Char) (h : wfText t = true) (r : List Nat) :
    readText (writeText t ++ r) = .ok (t, r) := by
  simp only [wfText, decide_eq_true_eq] at h
  rw [writeText, show (writeU32 ((utf8Encode t).length + 1) ++ utf8Encode t ++ writeU8 0) ++ r
      = writeU32 ((utf8Encode t).length + 1) ++ (utf8Encode t ++ (0 :: r)) from by
    simp [writeU8, List.append_assoc]]
  rw [readText, readU32_writeU32, bind_ok]
  simp only []
  have m1 : ((utf8Encode t).length + 1) % 4294967296 = (utf8Encode t).length + 1 := by omega
  rw [m1, if_neg (by omega)]
  have m2 : (utf8Encode t).length + 1 - 1 = (utf8Encode t).length := by omega
  rw [m2, readBytes_exact, bind_ok]
  simp only []
  rw [readU8, bind_ok]
  simp only []
  rw [utf8Lossy_enc]

theorem readArray_flatMap {α β : Type} (f : List Nat → Except Err (α × List Nat))
    (g : β → List Nat) (hfun : β → α) (l : List β)
    (H : ∀ x ∈ l, ∀ r2, f (g x ++ r2) = .ok (hfun x, r2)) (r : List Nat) :
    readArray f l.length (l.flatMap g ++ r) = .ok (l.map hfun, r) := by
  induction l with
  | nil =>
    rw [List.flatMap_nil, List.nil_append, List.length_nil, readArray, List.map_nil]
  | cons x xs ih =>
    rw [List.flatMap_cons, List.length_cons, List.append_assoc, readArray]
    rw [H x (by simp) _, bind_ok]
    simp only []
    rw [ih (fun y hy r2 => H y (by simp [hy]) r2), bind_ok]
    simp only [List.map_cons]

theorem readArray_flatMap_id {α : Type} (f : List Nat → Except Err (α × List Nat))
    (g : α → List Nat) (l : List α)
    (H : ∀ x ∈ l, ∀ r2, f (g x ++ r2) = .ok (x, r2)) (r : List Nat) :
    readArray f l.length (l.flatMap g ++ r) = .ok (l, r) := by
  have := readArray_flatMap f g id l H r
  simpa using this

theorem readArray_writeU32 (l : List Nat) (r : List Nat) :
    readArray readU32 l.length (l.flatMap writeU32 ++ r) =
      .ok (l.map (· % 4294967296), r) :=
  readArray_flatMap readU32 writeU32 _ l (fun x _ r2 => readU32_writeU32 x r2) r

theorem readArray_writeU64 (l : List Nat) (r : List Nat) :
    readArray readU64 l.length (l.flatMap writeU64 ++ r) =
      .ok (l.map (· % 18446744073709551616), r) :=
  readArray_flatMap readU64 writeU64 _ l (fun x _ r2 => readU64_writeU64 x r2) r

theorem readArray_writeU16be (l : List Nat) (r : List Nat) :
    readArray readU16be l.length (l.flatMap writeU16be ++ r) =
      .ok (l.map (· % 65536), r) :=
  readArray_flatMap readU16be writeU16be _ l (fun x _ r2 => readU16be_writeU16be x r2) r

theorem map_mod_id (l : List Nat) (m : Nat) (h : ∀ x ∈ l, x < m) :
    l.map (· % m) = l := by
  induction l with
  | nil => rfl
  | cons x xs ih =>
    simp only [List.map_cons, List.cons.injEq]
    exact ⟨Nat.mod_eq_of_lt (h x (by simp)), ih (fun y hy => h y (by simp [hy]))⟩

theorem assetData_read_write (a : AssetData) (h : a.wf = true) (r : List Nat) :
    AssetData.read (a.write ++ r) = .ok (a, r) := by
  obtain ⟨op, pp, ac, pn, an, tags, bc, chunks, flags⟩ := a
  simp only [AssetData.wf, Bool.and_eq_true, decide_eq_true_eq, List.all_eq_true] at h
  obtain ⟨⟨⟨⟨⟨⟨⟨⟨⟨h1, h2⟩, h3⟩, h4⟩, h5⟩, h6⟩, h7⟩, h8⟩, h9⟩, h10⟩ := h
  rw [AssetData.read, AssetData.write]
  simp only [List.append_assoc]
  rw [nif_read_write _ h1, bind_ok]; simp only []
  rw [nif_read_write _ h2, bind_ok]; simp only []
  rw [nif_read_write _ h3, bind_ok]; simp only []
  rw [nif_read_write _ h4, bind_ok]; simp only []
  rw [nif_read_write _ h5, bind_ok]; simp only []
  rw [mapHandle_read_write _ h6, bind_ok]; simp only []
  rw [readU32_writeU32, bind_ok]; simp only []
  rw [readU32_writeU32, bind_ok]; simp only []
  rw [Nat.mod_eq_of_lt h8, Nat.mod_eq_of_lt h7]
  rw [readArray_writeU32, bind_ok]; simp only []
  rw [readU32_writeU32, bind_ok]; simp only []
  rw [Nat.mod_eq_of_lt h10, map_mod_id chunks _ (fun x hx => h9 x hx)]

theorem dependencies_read_write (d : Dependencies) (h : d.wf = true) (r : List Nat) :
    Dependencies.read (d.write ++ r) = .ok (d, r) := by
  obtain ⟨sz, deps, pdbs⟩ := d
  simp only [Dependencies.wf, Bool.and_eq_true, decide_eq_true_eq, List.all_eq_true] at h
  obtain ⟨⟨⟨h1, h2⟩, h3⟩, h4⟩ := h
  rw [Dependencies.read, Dependencies.write]
  simp only [List.append_assoc]
  rw [readU64_writeU64, bind_ok]; simp only []
  rw [readU32_writeU32, bind_ok]; simp only []
  rw [Nat.mod_eq_of_lt h1, Nat.mod_eq_of_lt h2]
  rw [readArray_writeU32, bind_ok]; simp only []
  rw [readU32_writeU32, bind_ok]; simp only []
  rw [Nat.mod_eq_of_lt h4, map_mod_id deps _ (fun x hx => h3 x (by simpa using hx))]

theorem guid_read_write (g : Guid) (h : g.length = 16) (r : List Nat) :
    Guid.read (Guid.write g ++ r) = .ok (g, r) := by
  rw [Guid.read, Guid.write, ← h, readBytes_exact]

theorem readNameStrings_write (names : List (List Char)) (r : List Nat) :
    readNameStrings (names.map (fun n => (utf8Encode n).length))
      (names.flatMap utf8Encode ++ r) = .ok (names, r) := by
  induction names with
  | nil => rw [List.map_nil, List.flatMap_nil, List.nil_append, readNameStrings]
  | cons n ns ih =>
    rw [List.map_cons, List.flatMap_cons, List.append_assoc, readNameStrings]
    rw [readBytes_exact, bind_ok]
    simp only []
    rw [ih, bind_ok]
    simp only []
    rw [utf8Lossy_enc]

theorem foldl_insertName (names : List (List Char)) (h : names.Nodup) :
    names.foldl insertName [] = names := by
  suffices H : ∀ (l acc : List (List Char)), (acc ++ l).Nodup →
      l.foldl insertName acc = acc ++ l by
    simpa using H names [] (by simpa using h)
  intro l
  induction l with
  | nil => intro acc _; simp
  | cons x xs ih =>
    intro acc hacc
    have hparts := List.nodup_append.mp hacc
    have hx : x ∉ acc := fun hmem => hparts.2.2 hmem (by simp)
    rw [List.foldl_cons, insertName, if_neg hx,
      ih (acc ++ [x]) (by simpa using hacc)]
    simp

theorem readArray_flatMapN {α β : Type} (f : List Nat → Except Err (α × List Nat))
    (g : β → List Nat) (hfun : β → α) (l : List β) (n : Nat) (hn : n = l.length)
    (H : ∀ x ∈ l, ∀ r2, f (g x ++ r2) = .ok (hfun x, r2)) (r : List Nat) :
    readArray f n (l.flatMap g ++ r) = .ok (l.map hfun, r) := by
  subst hn
  exact readArray_flatMap f g hfun l H r

theorem exclScan_length (acc : Nat) (l : List Nat) :
    (exclScan acc l).length = l.length := by
  induction l generalizing acc with
  | nil => rfl
  | cons x xs ih => simp [exclScan, ih]

theorem store_read_writeBody (st : Store) (h : st.wf = true) (tail : List Nat) :
    Store.read (Store.writeBody st ++ tail) =
      (readU32 tail >>= fun x =>
        match x with
        | (magicEnd, s) =>
          if magicEnd ≠ MAGIC_END then .error .malformedFraming
          else .ok (st, s)) := by
  simp only [Store.wf, Bool.and_eq_true, decide_eq_true_eq, List.all_eq_true] at h
  obtain ⟨⟨⟨⟨⟨⟨⟨⟨⟨⟨⟨⟨⟨⟨⟨⟨c1, c2⟩, c3⟩, c4⟩, c5⟩, c6⟩, c7⟩, c8⟩, c9⟩, c10⟩,
    c11⟩, c12⟩, c13⟩, c14⟩, c15⟩, c16⟩, c17⟩ := h
  rw [Store.read, Store.writeBody]
  simp only [List.append_assoc]
  rw [readU32_writeU32, bind_ok]; simp only []
  rw [show MAGIC_START % 4294967296 = MAGIC_START from by norm_num [MAGIC_START]]
  rw [if_neg (show ¬ MAGIC_START ≠ MAGIC_START from by simp)]
  rw [readU32_writeU32, bind_ok]; simp only []
  rw [readU32_writeU32, bind_ok]; simp only []
  rw [readU32_writeU32, bind_ok]; simp only []
  rw [readU32_writeU32, bind_ok]; simp only []
  rw [readU32_writeU32, bind_ok]; simp only []
  rw [readU32_writeU32, bind_ok]; simp only []
  rw [readU32_writeU32, bind_ok]; simp only []
  rw [readU32_writeU32, bind_ok]; simp only []
  rw [readU32_writeU32, bind_ok]; simp only []
  rw [readU32_writeU32, bind_ok]; simp only []
  rw [readU32_writeU32, bind_ok]; simp only []
  rw [readU32_writeU32, bind_ok]; simp only []
  rw [Nat.mod_eq_of_lt c3, Nat.mod_eq_of_lt c4, Nat.mod_eq_of_lt c5,
    Nat.mod_eq_of_lt c6, Nat.mod_eq_of_lt c2, Nat.mod_eq_of_lt c7,
    Nat.mod_eq_of_lt c8, Nat.mod_eq_of_lt c9, Nat.mod_eq_of_lt c1]
  rw [readArray_flatMap_id readText writeText st.texts
    (fun x hx r2 => readText_writeText x (c10 x hx) r2), bind_ok]
  simp only []
  rw [readArray_flatMap_id NameIndexFlagged.read NameIndexFlagged.write st.nbl_names
    (fun x hx r2 => nif_read_write x (c11 x hx) r2), bind_ok]
  simp only []
  rw [readArray_flatMap_id NameIndexFlagged.read NameIndexFlagged.write st.names
    (fun x hx r2 => nif_read_write x (c12 x hx) r2), bind_ok]
  simp only []
  rw [readArray_flatMap_id ExportPath.read ExportPath.write st.nbl_export_paths
    (fun x hx r2 => exportPath_read_write x (c13 x hx) r2), bind_ok]
  simp only []
  rw [readArray_flatMap_id ExportPath.read ExportPath.write st.export_paths
    (fun x hx r2 => exportPath_read_write x (c14 x hx) r2), bind_ok]
  simp only []
  rw [readArray_flatMapN readU32 writeU32 (· % 4294967296)
    (exclScan 0 (st.ansi_strings.map (fun n => (utf8Encode n).length + 1)))
    st.ansi_strings.length
    (by rw [exclScan_length, List.length_map])
    (fun x _ r2 => readU32_writeU32 x r2), bind_ok]
  simp only []
  rw [readArray_flatMapN readU32 writeU32 (· % 4294967296)
    (exclScan 0 (st.wide_strings.map (fun n => n.length + 1)))
    st.wide_strings.length
    (by rw [exclScan_length, List.length_map])
    (fun x _ r2 => readU32_writeU32 x r2), bind_ok]
  simp only []
  rw [readArray_flatMap_id readAnsiString writeAnsiString st.ansi_strings
    (fun x hx r2 => readAnsiString_write x (c15 x hx) r2), bind_ok]
  simp only []
  rw [readArray_flatMap_id readWString writeWString st.wide_strings
    (fun x hx r2 => readWString_write x (c16 x hx) r2), bind_ok]
  simp only []
  rw [readArray_flatMap_id Pair.read Pair.write st.pairs
    (fun x hx r2 => pair_read_write x (c17 x hx) r2), bind_ok]

theorem store_read_write (st : Store) (h : st.wf = true) (r : List Nat) :
    Store.read (Store.write st ++ r) = .ok (st, r) := by
  rw [Store.write, List.append_assoc, store_read_writeBody st h]
  rw [readU32_writeU32, bind_ok]
  simp only []
  rw [show MAGIC_END % 4294967296 = MAGIC_END from by norm_num [MAGIC_END]]
  rw [if_neg (show ¬ MAGIC_END ≠ MAGIC_END from by simp)]

theorem assetRegistry_read_write (reg : AssetRegistry) (h : reg.wf = true)
    (r : List Nat) :
    AssetRegistry.read (AssetRegistry.write reg ++ r) = .ok (reg, r) := by
  simp only [AssetRegistry.wf, Bool.and_eq_true, decide_eq_true_eq,
    List.all_eq_true, beq_iff_eq] at h
  obtain ⟨⟨⟨⟨⟨⟨⟨⟨⟨hguid, hvi⟩, hhv⟩, hnc⟩, hnodup⟩, hwfn⟩, hstore⟩, hadc⟩,
    had⟩, hdeps⟩ := h
  rw [AssetRegistry.read, AssetRegistry.write]
  simp only [List.append_assoc]
  rw [guid_read_write _ hguid, bind_ok]; simp only []
  rw [readU32_writeU32, bind_ok]; simp only []
  rw [readU32_writeU32, bind_ok]; simp only []
  rw [readU32_writeU32, bind_ok]; simp only []
  rw [readU64_writeU64, bind_ok]; simp only []
  rw [Nat.mod_eq_of_lt hvi, Nat.mod_eq_of_lt hnc, Nat.mod_eq_of_lt hhv]
  rw [readArray_flatMapN readU64
      (fun n => writeU64 (cityHash64 (utf8Encode (asciiLower n))))
      (fun n => cityHash64 (utf8Encode (asciiLower n)) % 18446744073709551616)
      reg.names reg.names.length rfl
      (fun x _ r2 => readU64_writeU64 _ r2), bind_ok]
  simp only []
  rw [readArray_flatMapN readU16be
      (fun n => writeU16be (utf8Encode n).length)
      (fun n => (utf8Encode n).length % 65536)
      reg.names reg.names.length rfl
      (fun x _ r2 => readU16be_writeU16be _ r2), bind_ok]
  simp only []
  rw [show reg.names.map (fun n => (utf8Encode n).length % 65536)
      = reg.names.map (fun n => (utf8Encode n).length) from
    List.map_congr_left (fun x hx => Nat.mod_eq_of_lt (by
      have := hwfn x hx
      simp only [wfName, decide_eq_true_eq] at this
      exact this))]
  rw [readNameStrings_write, bind_ok]
  simp only []
  rw [foldl_insertName _ hnodup]
  rw [store_read_write _ hstore, bind_ok]
  simp only []
  rw [readU32_writeU32, bind_ok]; simp only []
  rw [Nat.mod_eq_of_lt hadc]
  rw [readArray_flatMap_id AssetData.read AssetData.write reg.asset_data
      (fun x hx r2 => assetData_read_write x (had x hx) r2), bind_ok]
  simp only []
  rw [dependencies_read_write _ hdeps, bind_ok]

theorem indexOfName_some (names : Names) (n : List Char) :
    ∀ (i : Nat), indexOfName names n = some i → names[i]? = some n := by
  induction names with
  | nil => intro i h; simp [indexOfName] at h
  | cons x xs ih =>
    intro i h
    rw [indexOfName] at h
    by_cases hx : x = n
    · rw [if_pos hx] at h
      cases h
      simp [hx]
    · rw [if_neg hx] at h
      cases hio : indexOfName xs n with
      | none => rw [hio] at h; simp at h
      | some j =>
        rw [hio] at h
        have hij : j + 1 = i := by simpa using h
        subst hij
        simpa using ih j hio

theorem getName_lookup (names : Names) (n : List Char) :
    (getName names n).2[(getName names n).1.index]? = some n := by
  rw [getName]
  cases hio : indexOfName names n with
  | none =>
    simp only []
    rw [List.getElem?_append_right (by omega)]
    simp
  | some i =>
    simp only []
    exact indexOfName_some names n i hio

theorem getName_ext (names : Names) (n : List Char) :
    ∃ ext, (getName names n).2 = names ++ ext := by
  rw [getName]
  cases hio : indexOfName names n with
  | none => exact ⟨[n], rfl⟩
  | some i => exact ⟨[], by simp⟩

theorem getElem?_mono {α : Type} (l ext : List α) (i : Nat) (x : α)
    (h : l[i]? = some x) : (l ++ ext)[i]? = some x := by
  have hlt : i < l.length := by
    by_contra hge
    rw [List.getElem?_eq_none (by omega)] at h
    exact Option.noConfusion h
  rw [List.getElem?_append_left hlt]
  exact h

theorem findDup_extend (names ext : Names) (ad : List AssetData) (t : List Char)
    (h : findDup names ad t = .ok false) :
    findDup (names ++ ext) ad t = .ok false := by
  induction ad with
  | nil => rw [findDup]
  | cons a rest ih =>
    rw [findDup] at h ⊢
    cases hl : names[a.object_path.index]? with
    | none => rw [hl] at h; exact absurd h (by simp)
    | some s =>
      rw [hl] at h
      rw [getElem?_mono _ _ _ _ hl]
      simp only [] at h ⊢
      by_cases hs : s = t
      · rw [if_pos hs] at h; exact absurd h (by simp)
      · rw [if_neg hs] at h ⊢
        exact ih h

theorem findDup_append (names : Names) (ad1 ad2 : List AssetData) (t : List Char)
    (h : findDup names ad1 t = .ok false) :
    findDup names (ad1 ++ ad2) t = findDup names ad2 t := by
  induction ad1 with
  | nil => simp
  | cons a rest ih =>
    rw [findDup] at h
    rw [List.cons_append, findDup]
    cases hl : names[a.object_path.index]? with
    | none => rw [hl] at h; exact absurd h (by simp)
    | some s =>
      rw [hl] at h
      simp only [] at h ⊢
      by_cases hs : s = t
      · rw [if_pos hs] at h; exact absurd h (by simp)
      · rw [if_neg hs] at h ⊢
        exact ih h

theorem findDup_cons_hit (names : Names) (a : AssetData) (rest : List AssetData)
    (t : List Char) (h : names[a.object_path.index]? = some t) :
    findDup names (a :: rest) t = .ok true := by
  rw [findDup, h]
  simp

theorem findIdx?_some_lt {α : Type} (p : α → Bool) (l : List α) (i : Nat)
    (h : l.findIdx? p = some i) : ∃ x, l[i]? = some x ∧ p x = true := by
  obtain ⟨hlt, hp, _⟩ := List.findIdx?_eq_some_iff_getElem.mp h
  exact ⟨l[i], by simp [List.getElem?_eq_getElem hlt], hp⟩

theorem exts_trans {a b c : Names} (h1 : ∃ e, b = a ++ e) (h2 : ∃ e, c = b ++ e) :
    ∃ e, c = a ++ e := by
  obtain ⟨e1, rfl⟩ := h1
  obtain ⟨e2, rfl⟩ := h2
  exact ⟨e1 ++ e2, by simp⟩

theorem populate_idem (reg : AssetRegistry) (path : List Char)
    (asset : ParsedAsset) (reg' : AssetRegistry)
    (h : populate reg path asset = .ok reg') :
    populate reg' path asset = .ok reg' := by
  rw [populate] at h ⊢
  cases hgp : pakPathToGamePath path with
  | none =>
    rw [hgp] at h
    exact Except.noConfusion
      (show (Except.error PopErr.noGamePath : Except PopErr AssetRegistry)
        = Except.ok reg' from h)
  | some gp =>
  rw [hgp] at h
  simp only [bind_ok] at h ⊢
  cases hre : getRootExport asset with
  | none =>
    rw [hre] at h
    exact Except.noConfusion
      (show (Except.error PopErr.noRootExport : Except PopErr AssetRegistry)
        = Except.ok reg' from h)
  | some i =>
  rw [hre] at h
  simp only [bind_ok] at h ⊢
  cases hexp : asset.exports[i]? with
  | none =>
    rw [hexp] at h
    exact Except.noConfusion
      (show (Except.error PopErr.indexPanic : Except PopErr AssetRegistry)
        = Except.ok reg' from h)
  | some root =>
  rw [hexp] at h
  simp only [bind_ok] at h ⊢
  cases hpar : parentPath gp with
  | none =>
    rw [hpar] at h
    exact Except.noConfusion
      (show (Except.error PopErr.noPathParent : Except PopErr AssetRegistry)
        = Except.ok reg' from h)
  | some pp =>
  rw [hpar] at h
  simp only [bind_ok] at h ⊢
  cases himp : getImport asset root.class_index with
  | none =>
    rw [himp] at h
    exact Except.noConfusion
      (show (Except.error PopErr.badImportRef : Except PopErr AssetRegistry)
        = Except.ok reg' from h)
  | some ac =>
  rw [himp] at h
  simp only [bind_ok] at h ⊢
  cases hdup : findDup reg.names reg.asset_data (gp ++ '.' :: root.object_name) with
  | error e =>
    rw [hdup] at h
    simp only [bind_err] at h
    exact Except.noConfusion
      (show (Except.error e : Except PopErr AssetRegistry) = Except.ok reg' from h)
  | ok b =>
  rw [hdup] at h
  simp only [bind_ok] at h
  cases b with
  | true =>
    have hr : reg = reg' := by simpa using h
    subst hr
    rw [hdup]
    simp only [bind_ok]
    simp
  | false =>
    simp only [Bool.false_eq_true, if_false] at h
    rcases hg1 : getName reg.names (gp ++ '.' :: root.object_name) with ⟨op1, names1⟩
    rw [hg1] at h
    simp only [] at h
    rcases hg2 : getName names1 pp with ⟨pp1, names2⟩
    rw [hg2] at h
    simp only [] at h
    rcases hg3 : getName names2 ac with ⟨ac1, names3⟩
    rw [hg3] at h
    simp only [] at h
    rcases hg4 : getName names3 gp with ⟨pn1, names4⟩
    rw [hg4] at h
    simp only [] at h
    rcases hg5 : getName names4 root.object_name with ⟨an1, names5⟩
    rw [hg5] at h
    simp only [] at h
    -- facts about the first interned name
    have hext1 : ∃ e, names1 = reg.names ++ e := by
      have := getName_ext reg.names (gp ++ '.' :: root.object_name)
      rw [hg1] at this
      exact this
    have hext2 : ∃ e, names2 = names1 ++ e := by
      have := getName_ext names1 pp
      rw [hg2] at this
      exact this
    have hext3 : ∃ e, names3 = names2 ++ e := by
      have := getName_ext names2 ac
      rw [hg3] at this
      exact this
    have hext4 : ∃ e, names4 = names3 ++ e := by
      have := getName_ext names3 gp
      rw [hg4] at this
      exact this
    have hext5 : ∃ e, names5 = names4 ++ e := by
      have := getName_ext names4 root.object_name
      rw [hg5] at this
      exact this
    have hlook1 : names1[op1.index]? = some (gp ++ '.' :: root.object_name) := by
      have := getName_lookup reg.names (gp ++ '.' :: root.object_name)
      rw [hg1] at this
      exact this
    have hlook5 : names5[op1.index]? = some (gp ++ '.' :: root.object_name) := by
      obtain ⟨e2, rfl⟩ := hext2
      obtain ⟨e3, rfl⟩ := hext3
      obtain ⟨e4, rfl⟩ := hext4
      obtain ⟨e5, rfl⟩ := hext5
      simp only [List.append_assoc]
      exact getElem?_mono _ _ _ _ hlook1
    have hext15 : ∃ e, names5 = reg.names ++ e :=
      exts_trans hext1 (exts_trans hext2 (exts_trans hext3 (exts_trans hext4 hext5)))
    have hfind5 : findDup names5 reg.asset_data (gp ++ '.' :: root.object_name)
        = .ok false := by
      obtain ⟨e, rfl⟩ := hext15
      exact findDup_extend _ _ _ _ hdup
    -- split on the Blueprint stripping
    cases hs1 : stripSuffix root.object_name cSuffix with
    | none =>
      rw [hs1] at h
      simp only [] at h
      have hr := Except.ok.inj h
      subst hr
      simp only []
      rw [show findDup names5 (reg.asset_data ++
          [⟨op1, pp1, ac1, pn1, an1, ⟨true, 0, 0⟩, 0, [], 0⟩])
          (gp ++ '.' :: root.object_name) = .ok true from by
        rw [findDup_append _ _ _ _ hfind5]
        exact findDup_cons_hit _ _ _ _ hlook5]
      simp only [bind_ok]
      simp
    | some an2s =>
      rw [hs1] at h
      cases hs2 : stripSuffix (gp ++ '.' :: root.object_name) cSuffix with
      | none =>
        rw [hs2] at h
        simp only [] at h
        have hr := Except.ok.inj h
        subst hr
        simp only []
        rw [show findDup names5 (reg.asset_data ++
            [⟨op1, pp1, ac1, pn1, an1, ⟨true, 0, 0⟩, 0, [], 0⟩])
            (gp ++ '.' :: root.object_name) = .ok true from by
          rw [findDup_append _ _ _ _ hfind5]
          exact findDup_cons_hit _ _ _ _ hlook5]
        simp only [bind_ok]
        simp
      | some op2s =>
        rw [hs2] at h
        cases hs3 : stripSuffix ac generatedClassSuffix with
        | none =>
          rw [hs3] at h
          simp only [] at h
          have hr := Except.ok.inj h
          subst hr
          simp only []
          rw [show findDup names5 (reg.asset_data ++
              [⟨op1, pp1, ac1, pn1, an1, ⟨true, 0, 0⟩, 0, [], 0⟩])
              (gp ++ '.' :: root.object_name) = .ok true from by
            rw [findDup_append _ _ _ _ hfind5]
            exact findDup_cons_hit _ _ _ _ hlook5]
          simp only [bind_ok]
          simp
        | some ac2s =>
          rw [hs3] at h
          simp only [] at h
          rcases hg6 : getName names5 op2s with ⟨op2, namesA⟩
          rw [hg6] at h
          simp only [] at h
          rcases hg7 : getName namesA ac2s with ⟨ac2, namesB⟩
          rw [hg7] at h
          simp only [] at h
          rcases hg8 : getName namesB an2s with ⟨an2, namesC⟩
          rw [hg8] at h
          simp only [] at h
          have hr := Except.ok.inj h
          subst hr
          simp only []
          have hextA : ∃ e, namesA = names5 ++ e := by
            have := getName_ext names5 op2s
            rw [hg6] at this
            exact this
          have hextB : ∃ e, namesB = namesA ++ e := by
            have := getName_ext namesA ac2s
            rw [hg7] at this
            exact this
          have hextC2 : ∃ e, namesC = namesB ++ e := by
            have := getName_ext namesB an2s
            rw [hg8] at this
            exact this
          have hextC : ∃ e, namesC = names5 ++ e :=
            exts_trans hextA (exts_trans hextB hextC2)
          have hlookC : namesC[op1.index]? = some (gp ++ '.' :: root.object_name) := by
            obtain ⟨e, rfl⟩ := hextC
            exact getElem?_mono _ _ _ _ hlook5
          have hfindC : findDup namesC reg.asset_data (gp ++ '.' :: root.object_name)
              = .ok false := by
            obtain ⟨e, rfl⟩ := hextC
            exact findDup_extend _ _ _ _ hfind5
          rw [show findDup namesC ((reg.asset_data ++
              [⟨op1, pp1, ac1, pn1, an1, ⟨true, 0, 0⟩, 0, [], 0⟩]) ++
              [⟨op2, pp1, ac2, pn1, an2, ⟨true, 0, 0⟩, 0, [], 0⟩])
              (gp ++ '.' :: root.object_name) = .ok true from by
            rw [List.append_assoc, findDup_append _ _ _ _ hfindC]
            exact findDup_cons_hit _ _ _ _ hlookC]
          simp only [bind_ok]
          simp

theorem populate_append_spec (reg : AssetRegistry) (path : List Char)
    (asset : ParsedAsset) (gp : List Char) (i : Nat) (root : ExportRec)
    (pp ac : List Char)
    (hgp : pakPathToGamePath path = some gp)
    (hre : getRootExport asset = some i)
    (hexp : asset.exports[i]? = some root)
    (hpar : parentPath gp = some pp)
    (himp : getImport asset root.class_index = some ac)
    (hdup : findDup reg.names reg.asset_data (gp ++ '.' :: root.object_name)
      = .ok false) :
    ∃ reg' : AssetRegistry, populate reg path asset = .ok reg' ∧
      (∃ e, reg'.names = reg.names ++ e) ∧
      (match stripSuffix root.object_name cSuffix,
             stripSuffix (gp ++ '.' :: root.object_name) cSuffix,
             stripSuffix ac generatedClassSuffix with
       | some an2s, some op2s, some ac2s =>
          ∃ r1 r2, reg'.asset_data = reg.asset_data ++ [r1, r2] ∧
            r2.package_path = r1.package_path ∧
            r2.package_name = r1.package_name ∧
            reg'.names[r1.object_path.index]? = some (gp ++ '.' :: root.object_name) ∧
            reg'.names[r1.package_path.index]? = some pp ∧
            reg'.names[r1.asset_class.index]? = some ac ∧
            reg'.names[r1.package_name.index]? = some gp ∧
            reg'.names[r1.asset_name.index]? = some root.object_name ∧
            reg'.names[r2.object_path.index]? = some op2s ∧
            reg'.names[r2.asset_class.index]? = some ac2s ∧
            reg'.names[r2.asset_name.index]? = some an2s
       | _, _, _ =>
          ∃ r1, reg'.asset_data = reg.asset_data ++ [r1] ∧
            reg'.names[r1.object_path.index]? = some (gp ++ '.' :: root.object_name) ∧
            reg'.names[r1.package_path.index]? = some pp ∧
            reg'.names[r1.asset_class.index]? = some ac ∧
            reg'.names[r1.package_name.index]? = some gp ∧
            reg'.names[r1.asset_name.index]? = some root.object_name) := by
  rcases hg1 : getName reg.names (gp ++ '.' :: root.object_name) with ⟨op1, names1⟩
  rcases hg2 : getName names1 pp with ⟨pp1, names2⟩
  rcases hg3 : getName names2 ac with ⟨ac1, names3⟩
  rcases hg4 : getName names3 gp with ⟨pn1, names4⟩
  rcases hg5 : getName names4 root.object_name with ⟨an1, names5⟩
  have hext1 : ∃ e, names1 = reg.names ++ e := by
    have := getName_ext reg.names (gp ++ '.' :: root.object_name)
    rw [hg1] at this
    exact this
  have hext2 : ∃ e, names2 = names1 ++ e := by
    have := getName_ext names1 pp
    rw [hg2] at this
    exact this
  have hext3 : ∃ e, names3 = names2 ++ e := by
    have := getName_ext names2 ac
    rw [hg3] at this
    exact this
  have hext4 : ∃ e, names4 = names3 ++ e := by
    have := getName_ext names3 gp
    rw [hg4] at this
    exact this
  have hext5 : ∃ e, names5 = names4 ++ e := by
    have := getName_ext names4 root.object_name
    rw [hg5] at this
    exact this
  have hlk1 : names1[op1.index]? = some (gp ++ '.' :: root.object_name) := by
    have := getName_lookup reg.names (gp ++ '.' :: root.object_name)
    rw [hg1] at this
    exact this
  have hlk2 : names2[pp1.index]? = some pp := by
    have := getName_lookup names1 pp
    rw [hg2] at this
    exact this
  have hlk3 : names3[ac1.index]? = some ac := by
    have := getName_lookup names2 ac
    rw [hg3] at this
    exact this
  have hlk4 : names4[pn1.index]? = some gp := by
    have := getName_lookup names3 gp
    rw [hg4] at this
    exact this
  have hlk5 : names5[an1.index]? = some root.object_name := by
    have := getName_lookup names4 root.object_name
    rw [hg5] at this
    exact this
  have hlk1_5 : names5[op1.index]? = some (gp ++ '.' :: root.object_name) := by
    obtain ⟨e2, rfl⟩ := hext2
    obtain ⟨e3, rfl⟩ := hext3
    obtain ⟨e4, rfl⟩ := hext4
    obtain ⟨e5, rfl⟩ := hext5
    simp only [List.append_assoc]
    exact getElem?_mono _ _ _ _ hlk1
  have hlk2_5 : names5[pp1.index]? = some pp := by
    obtain ⟨e3, rfl⟩ := hext3
    obtain ⟨e4, rfl⟩ := hext4
    obtain ⟨e5, rfl⟩ := hext5
    simp only [List.append_assoc]
    exact getElem?_mono _ _ _ _ hlk2
  have hlk3_5 : names5[ac1.index]? = some ac := by
    obtain ⟨e4, rfl⟩ := hext4
    obtain ⟨e5, rfl⟩ := hext5
    simp only [List.append_assoc]
    exact getElem?_mono _ _ _ _ hlk3
  have hlk4_5 : names5[pn1.index]? = some gp := by
    obtain ⟨e5, rfl⟩ := hext5
    exact getElem?_mono _ _ _ _ hlk4
  have hext15 : ∃ e, names5 = reg.names ++ e :=
    exts_trans hext1 (exts_trans hext2 (exts_trans hext3 (exts_trans hext4 hext5)))
  have hrun0 : populate reg path asset =
      (match stripSuffix root.object_name cSuffix,
             stripSuffix (gp ++ '.' :: root.object_name) cSuffix,
             stripSuffix ac generatedClassSuffix with
       | some an2s, some op2s, some ac2s =>
          match getName names5 op2s with
          | (op2, namesA) =>
            match getName namesA ac2s with
            | (ac2, namesB) =>
              match getName namesB an2s with
              | (an2, namesC) =>
                Except.ok ⟨reg.version, reg.version_int, reg.hash_version, namesC,
                  reg.store,
                  (reg.asset_data ++ [⟨op1, pp1, ac1, pn1, an1, ⟨true, 0, 0⟩, 0, [], 0⟩])
                    ++ [⟨op2, pp1, ac2, pn1, an2, ⟨true, 0, 0⟩, 0, [], 0⟩],
                  reg.dependencies⟩
       | _, _, _ =>
          Except.ok ⟨reg.version, reg.version_int, reg.hash_version, names5,
            reg.store,
            reg.asset_data ++ [⟨op1, pp1, ac1, pn1, an1, ⟨true, 0, 0⟩, 0, [], 0⟩],
            reg.dependencies⟩) := by
    rw [populate, hgp]
    simp only [bind_ok]
    rw [hre]
    simp only [bind_ok]
    rw [hexp]
    simp only [bind_ok]
    rw [hpar]
    simp only [bind_ok]
    rw [himp]
    simp only [bind_ok]
    rw [hdup]
    simp only [bind_ok, Bool.false_eq_true, if_false]
    rw [hg1]
    simp only []
    rw [hg2]
    simp only []
    rw [hg3]
    simp only []
    rw [hg4]
    simp only []
    rw [hg5]
  cases hs1 : stripSuffix root.object_name cSuffix with
  | none =>
    rw [hs1] at hrun0
    simp only [] at hrun0
    exact ⟨_, hrun0, hext15,
      ⟨⟨op1, pp1, ac1, pn1, an1, ⟨true, 0, 0⟩, 0, [], 0⟩, rfl,
        hlk1_5, hlk2_5, hlk3_5, hlk4_5, hlk5⟩⟩
  | some an2s =>
    rw [hs1] at hrun0
    cases hs2 : stripSuffix (gp ++ '.' :: root.object_name) cSuffix with
    | none =>
      rw [hs2] at hrun0
      simp only [] at hrun0
      exact ⟨_, hrun0, hext15,
        ⟨⟨op1, pp1, ac1, pn1, an1, ⟨true, 0, 0⟩, 0, [], 0⟩, rfl,
          hlk1_5, hlk2_5, hlk3_5, hlk4_5, hlk5⟩⟩
    | some op2s =>
      rw [hs2] at hrun0
      cases hs3 : stripSuffix ac generatedClassSuffix with
      | none =>
        rw [hs3] at hrun0
        simp only [] at hrun0
        exact ⟨_, hrun0, hext15,
          ⟨⟨op1, pp1, ac1, pn1, an1, ⟨true, 0, 0⟩, 0, [], 0⟩, rfl,
            hlk1_5, hlk2_5, hlk3_5, hlk4_5, hlk5⟩⟩
      | some ac2s =>
        rw [hs3] at hrun0
        simp only [] at hrun0
        rcases hg6 : getName names5 op2s with ⟨op2, namesA⟩
        rw [hg6] at hrun0
        simp only [] at hrun0
        rcases hg7 : getName namesA ac2s with ⟨ac2, namesB⟩
        rw [hg7] at hrun0
        simp only [] at hrun0
        rcases hg8 : getName namesB an2s with ⟨an2, namesC⟩
        rw [hg8] at hrun0
        simp only [] at hrun0
        have hextA : ∃ e, namesA = names5 ++ e := by
          have := getName_ext names5 op2s
          rw [hg6] at this
          exact this
        have hextB : ∃ e, namesB = namesA ++ e := by
          have := getName_ext namesA ac2s
          rw [hg7] at this
          exact this
        have hextC : ∃ e, namesC = namesB ++ e := by
          have := getName_ext namesB an2s
          rw [hg8] at this
          exact this
        have hlk6 : namesA[op2.index]? = some op2s := by
          have := getName_lookup names5 op2s
          rw [hg6] at this
          exact this
        have hlk7 : namesB[ac2.index]? = some ac2s := by
          have := getName_lookup namesA ac2s
          rw [hg7] at this
          exact this
        have hlk8 : namesC[an2.index]? = some an2s := by
          have := getName_lookup namesB an2s
          rw [hg8] at this
          exact this
        have lift5 : ∀ (j : Nat) (x : List Char), names5[j]? = some x →
            namesC[j]? = some x := by
          intro j x hx
          obtain ⟨eA, rfl⟩ := hextA
          obtain ⟨eB, rfl⟩ := hextB
          obtain ⟨eC, rfl⟩ := hextC
          simp only [List.append_assoc]
          exact getElem?_mono _ _ _ _ hx
        have hlk6C : namesC[op2.index]? = some op2s := by
          obtain ⟨eB, rfl⟩ := hextB
          obtain ⟨eC, rfl⟩ := hextC
          simp only [List.append_assoc]
          exact getElem?_mono _ _ _ _ hlk6
        have hlk7C : namesC[ac2.index]? = some ac2s := by
          obtain ⟨eC, rfl⟩ := hextC
          exact getElem?_mono _ _ _ _ hlk7
        refine ⟨_, hrun0, exts_trans hext15
          (exts_trans hextA (exts_trans hextB hextC)), ?_⟩
        refine ⟨⟨op1, pp1, ac1, pn1, an1, ⟨true, 0, 0⟩, 0, [], 0⟩,
          ⟨op2, pp1, ac2, pn1, an2, ⟨true, 0, 0⟩, 0, [], 0⟩,
          by simp, rfl, rfl,
          lift5 _ _ hlk1_5, lift5 _ _ hlk2_5, lift5 _ _ hlk3_5,
          lift5 _ _ hlk4_5, lift5 _ _ hlk5, hlk6C, hlk7C, hlk8⟩

theorem findDup_error (names : Names) (ad : List AssetData) (t : List Char)
    (e : PopErr) (h : findDup names ad t = .error e) : e = .indexPanic := by
  induction ad with
  | nil => rw [findDup] at h; exact absurd h (by simp)
  | cons a rest ih =>
    rw [findDup] at h
    cases hl : names[a.object_path.index]? with
    | none =>
      rw [hl] at h
      simp only [] at h
      exact (Except.error.inj h).symm
    | some s =>
      rw [hl] at h
      simp only [] at h
      by_cases hs : s = t
      · rw [if_pos hs] at h
        exact absurd h (by simp)
      · rw [if_neg hs] at h
        exact ih h

theorem populate_noRoot_iff (reg : AssetRegistry) (path : List Char)
    (asset : ParsedAsset) (gp : List Char)
    (hgp : pakPathToGamePath path = some gp) :
    populate reg path asset = .error .noRootExport ↔ getRootExport asset = none := by
  constructor
  · intro h
    cases hre : getRootExport asset with
    | none => rfl
    | some i =>
      exfalso
      rw [populate, hgp] at h
      simp only [bind_ok] at h
      rw [hre] at h
      simp only [bind_ok] at h
      cases hexp : asset.exports[i]? with
      | none =>
        rw [hexp] at h
        exact PopErr.noConfusion (Except.error.inj h)
      | some root =>
        rw [hexp] at h
        simp only [bind_ok] at h
        cases hpar : parentPath gp with
        | none =>
          rw [hpar] at h
          exact PopErr.noConfusion (Except.error.inj h)
        | some pp =>
          rw [hpar] at h
          simp only [bind_ok] at h
          cases himp : getImport asset root.class_index with
          | none =>
            rw [himp] at h
            exact PopErr.noConfusion (Except.error.inj h)
          | some ac =>
            rw [himp] at h
            simp only [bind_ok] at h
            cases hdup : findDup reg.names reg.asset_data
                (gp ++ '.' :: root.object_name) with
            | error e =>
              rw [hdup] at h
              simp only [bind_err] at h
              have he := findDup_error _ _ _ _ hdup
              subst he
              exact PopErr.noConfusion (Except.error.inj h)
            | ok b =>
              rw [hdup] at h
              simp only [bind_ok] at h
              cases b with
              | true =>
                exact Except.noConfusion
                  (show (Except.ok reg : Except PopErr AssetRegistry)
                    = Except.error PopErr.noRootExport from h)
              | false =>
                simp only [Bool.false_eq_true, if_false] at h
                rcases hg1 : getName reg.names (gp ++ '.' :: root.object_name)
                  with ⟨op1, names1⟩
                rw [hg1] at h
                simp only [] at h
                rcases hg2 : getName names1 pp with ⟨pp1, names2⟩
                rw [hg2] at h
                simp only [] at h
                rcases hg3 : getName names2 ac with ⟨ac1, names3⟩
                rw [hg3] at h
                simp only [] at h
                rcases hg4 : getName names3 gp with ⟨pn1, names4⟩
                rw [hg4] at h
                simp only [] at h
                rcases hg5 : getName names4 root.object_name with ⟨an1, names5⟩
                rw [hg5] at h
                simp only [] at h
                cases hs1 : stripSuffix root.object_name cSuffix with
                | none =>
                  rw [hs1] at h
                  simp only [] at h
                  exact Except.noConfusion h
                | some an2s =>
                  rw [hs1] at h
                  cases hs2 : stripSuffix (gp ++ '.' :: root.object_name) cSuffix with
                  | none =>
                    rw [hs2] at h
                    simp only [] at h
                    exact Except.noConfusion h
                  | some op2s =>
                    rw [hs2] at h
                    cases hs3 : stripSuffix ac generatedClassSuffix with
                    | none =>
                      rw [hs3] at h
                      simp only [] at h
                      exact Except.noConfusion h
                    | some ac2s =>
                      rw [hs3] at h
                      simp only [] at h
                      rcases hg6 : getName names5 op2s with ⟨op2, namesA⟩
                      rw [hg6] at h
                      simp only [] at h
                      rcases hg7 : getName namesA ac2s with ⟨ac2, namesB⟩
                      rw [hg7] at h
                      simp only [] at h
                      rcases hg8 : getName namesB an2s with ⟨an2, namesC⟩
                      rw [hg8] at h
                      simp only [] at h
                      exact Except.noConfusion h
  · intro h
    rw [populate, hgp]
    simp only [bind_ok]
    rw [h]
    rfl

theorem nth32_skip (a : Nat) (rest : List Nat) (k : Nat) :
    nth32 (writeU32 a ++ rest) (k + 1) = nth32 rest k := by
  rw [nth32, nth32]
  have h : 4 * (k + 1) = (writeU32 a).length + 4 * k := by
    simp [writeU32]
    omega
  rw [h, List.drop_append]

theorem nth32_here (a : Nat) (rest : List Nat) :
    nth32 (writeU32 a ++ rest) 0 = some (a % 4294967296) := by
  rw [nth32]
  simp only [Nat.mul_zero, List.drop_zero]
  rw [readU32_writeU32]

theorem nth32_flatMap_writeU32 : ∀ (ws : List Nat) (k : Nat), k < ws.length →
    ∀ (rest : List Nat),
    nth32 (ws.flatMap writeU32 ++ rest) k = some (ws.getD k 0 % 4294967296) := by
  intro ws
  induction ws with
  | nil => intro k hk; simp at hk
  | cons w ws ih =>
    intro k hk rest
    cases k with
    | zero =>
      rw [List.flatMap_cons, List.append_assoc, nth32_here]
      rfl
    | succ k =>
      rw [List.flatMap_cons, List.append_assoc, nth32_skip]
      rw [ih k (by simp at hk; omega) rest]
      rfl

theorem drop_len_append {α : Type} (X Y : List α) (n : Nat) :
    (X ++ Y).drop (X.length + n) = Y.drop n := by
  induction X with
  | nil => simp
  | cons x xs ih =>
    simp only [List.length_cons, List.cons_append]
    rw [show xs.length + 1 + n = (xs.length + n) + 1 from by omega,
      List.drop_succ_cons, ih]

theorem drop4_writeU32 (a : Nat) (Y : List Nat) (n : Nat) :
    (writeU32 a ++ Y).drop (4 + n) = Y.drop n := by
  have h : 4 + n = (writeU32 a).length + n := by simp [writeU32]
  rw [h, drop_len_append]

theorem store_write_decomp (st : Store) :
    Store.write st =
      [MAGIC_START, st.nbl_names.length, st.names.length,
       st.nbl_export_paths.length, st.export_paths.length, st.texts.length,
       st.ansi_strings.length, st.wide_strings.length,
       (st.ansi_strings.map (fun n => (utf8Encode n).length + 1)).sum,
       (st.wide_strings.map (fun n => n.length + 1)).sum,
       st.pairs.length, st.pair_count,
       (st.texts.map (fun n => (utf8Encode n).length + 1 + 4)).sum].flatMap writeU32 ++
      (st.texts.flatMap writeText ++
       (st.nbl_names.flatMap NameIndexFlagged.write ++
        (st.names.flatMap NameIndexFlagged.write ++
         (st.nbl_export_paths.flatMap ExportPath.write ++
          (st.export_paths.flatMap ExportPath.write ++
           ((exclScan 0 (st.ansi_strings.map (fun n => (utf8Encode n).length + 1))).flatMap writeU32 ++
            ((exclScan 0 (st.wide_strings.map (fun n => n.length + 1))).flatMap writeU32 ++
             (st.ansi_strings.flatMap writeAnsiString ++
              (st.wide_strings.flatMap writeWString ++
               (st.pairs.flatMap Pair.write ++ writeU32 MAGIC_END)))))))))) := by
  rw [Store.write, Store.writeBody]
  simp [List.flatMap_cons, List.append_assoc]

theorem store_write_offset_tables (st : Store) :
    (Store.write st).drop
      (52 + ((st.texts.flatMap writeText).length +
        ((st.nbl_names.flatMap NameIndexFlagged.write).length +
         ((st.names.flatMap NameIndexFlagged.write).length +
          ((st.nbl_export_paths.flatMap ExportPath.write).length +
           (st.export_paths.flatMap ExportPath.write).length))))) =
      (exclScan 0 (st.ansi_strings.map (fun n => (utf8Encode n).length + 1))).flatMap writeU32 ++
      ((exclScan 0 (st.wide_strings.map (fun n => n.length + 1))).flatMap writeU32 ++
       (st.ansi_strings.flatMap writeAnsiString ++
        (st.wide_strings.flatMap writeWString ++
         (st.pairs.flatMap Pair.write ++ writeU32 MAGIC_END)))) := by
  rw [Store.write, Store.writeBody]
  simp only [List.append_assoc]
  rw [show 52 + ((st.texts.flatMap writeText).length +
        ((st.nbl_names.flatMap NameIndexFlagged.write).length +
         ((st.names.flatMap NameIndexFlagged.write).length +
          ((st.nbl_export_paths.flatMap ExportPath.write).length +
           (st.export_paths.flatMap ExportPath.write).length)))) =
      4 + (4 + (4 + (4 + (4 + (4 + (4 + (4 + (4 + (4 + (4 + (4 + (4 + (((st.texts.flatMap writeText).length +
        ((st.nbl_names.flatMap NameIndexFlagged.write).length +
         ((st.names.flatMap NameIndexFlagged.write).length +
          ((st.nbl_export_paths.flatMap ExportPath.write).length +
           ((st.export_paths.flatMap ExportPath.write).length + 0))))))))))))))))))
      from by omega]
  simp only [drop4_writeU32]
  rw [drop_len_append, drop_len_append, drop_len_append, drop_len_append,
    drop_len_append, List.drop_zero]

theorem readArray_readU64_skip : ∀ (n : Nat) (bs rest : List Nat),
    bs.length = 8 * n →
    ∃ vs, readArray readU64 n (bs ++ rest) = .ok (vs, rest) := by
  intro n
  induction n with
  | zero =>
    intro bs rest h
    have hbs : bs = [] := List.eq_nil_of_length_eq_zero (by omega)
    subst hbs
    exact ⟨[], rfl⟩
  | succ n ih =>
    intro bs rest h
    obtain ⟨b0, b1, b2, b3, b4, b5, b6, b7, bs', rfl⟩ :
        ∃ b0 b1 b2 b3 b4 b5 b6 b7 bs',
          bs = b0 :: b1 :: b2 :: b3 :: b4 :: b5 :: b6 :: b7 :: bs' := by
      rcases bs with _ | ⟨b0, bs⟩
      · simp at h
      rcases bs with _ | ⟨b1, bs⟩
      · simp at h; omega
      rcases bs with _ | ⟨b2, bs⟩
      · simp at h; omega
      rcases bs with _ | ⟨b3, bs⟩
      · simp at h; omega
      rcases bs with _ | ⟨b4, bs⟩
      · simp at h; omega
      rcases bs with _ | ⟨b5, bs⟩
      · simp at h; omega
      rcases bs with _ | ⟨b6, bs⟩
      · simp at h; omega
      rcases bs with _ | ⟨b7, bs⟩
      · simp at h; omega
      exact ⟨b0, b1, b2, b3, b4, b5, b6, b7, bs, rfl⟩
    have hlen : bs'.length = 8 * n := by simp at h; omega
    obtain ⟨vs, hvs⟩ := ih bs' rest hlen
    refine ⟨((b0 + 256 * b1 + 65536 * b2 + 16777216 * b3 + 4294967296 * b4 +
      1099511627776 * b5 + 281474976710656 * b6 + 72057594037927936 * b7) %
      18446744073709551616) :: vs, ?_⟩
    rw [readArray]
    rw [show (b0 :: b1 :: b2 :: b3 :: b4 :: b5 :: b6 :: b7 :: bs') ++ rest
        = b0 :: b1 :: b2 :: b3 :: b4 :: b5 :: b6 :: b7 :: (bs' ++ rest) from by simp]
    rw [readU64, bind_ok]
    simp only []
    rw [hvs, bind_ok]

theorem registry_read_hash_independent (g : List Nat) (hg : g.length = 16)
    (vi nc nsb hv : Nat) (h1 h2 rest : List Nat)
    (hl1 : h1.length = 8 * (nc % 4294967296))
    (hl2 : h2.length = 8 * (nc % 4294967296)) :
    AssetRegistry.read (g ++ (writeU32 vi ++ (writeU32 nc ++ (writeU32 nsb ++
      (writeU64 hv ++ (h1 ++ rest)))))) =
    AssetRegistry.read (g ++ (writeU32 vi ++ (writeU32 nc ++ (writeU32 nsb ++
      (writeU64 hv ++ (h2 ++ rest)))))) := by
  simp only [AssetRegistry.read, Guid.read]
  rw [show (16 : Nat) = g.length from hg.symm]
  simp only [readBytes_exact, bind_ok, readU32_writeU32, readU64_writeU64]
  obtain ⟨vs1, e1⟩ := readArray_readU64_skip (nc % 4294967296) h1 rest hl1
  obtain ⟨vs2, e2⟩ := readArray_readU64_skip (nc % 4294967296) h2 rest hl2
  rw [e1, e2]
  simp only [bind_ok]

theorem drop8_writeU64 (a : Nat) (Y : List Nat) (n : Nat) :
    (writeU64 a ++ Y).drop (8 + n) = Y.drop n := by
  have h : 8 + n = (writeU64 a).length + n := by simp [writeU64, writeU32]
  rw [h, drop_len_append]

theorem registry_write_hash_segment (r : AssetRegistry) :
    (AssetRegistry.write r).drop (r.version.length + 20) =
      (r.names.flatMap fun n => writeU64 (cityHash64 (utf8Encode (asciiLower n)))) ++
      ((r.names.flatMap fun n => writeU16be (utf8Encode n).length) ++
       ((r.names.flatMap fun n => utf8Encode n) ++
        (Store.write r.store ++
         (writeU32 r.asset_data.length ++
          (r.asset_data.flatMap AssetData.write ++
           Dependencies.write r.dependencies))))) := by
  rw [AssetRegistry.write]
  simp only [List.append_assoc]
  rw [show r.version.length + 20 =
      (Guid.write r.version).length + (4 + (4 + (4 + (8 + 0)))) from by
    simp [Guid.write]]
  rw [drop_len_append]
  simp only [drop4_writeU32, drop8_writeU64]
  rw [List.drop_zero]

theorem NameIndexFlagged.read_index_lt (s : List Nat) (v : NameIndexFlagged)
    (rest : List Nat) (h : NameIndexFlagged.read s = .ok (v, rest)) :
    v.index < 2147483648 := by
  rw [NameIndexFlagged.read] at h
  cases h1 : readU32 s with
  | error e => rw [h1] at h; exact absurd h (by simp [bind_err])
  | ok p =>
    rw [h1] at h
    simp only [bind_ok] at h
    obtain ⟨n, s1⟩ := p
    simp only [] at h
    by_cases hn : 2147483648 ≤ n
    · rw [if_pos hn] at h
      cases h2 : readU32 s1 with
      | error e => rw [h2] at h; exact absurd h (by simp [bind_err])
      | ok q =>
        rw [h2] at h
        simp only [bind_ok] at h
        obtain ⟨f, s2⟩ := q
        simp only [] at h
        have hv : v = ⟨n % 2147483648, some f⟩ := by
          have := congrArg Prod.fst (Except.ok.inj h)
          simpa using this.symm
        rw [hv]
        simp only []
        omega
    · rw [if_neg hn] at h
      have hv : v = ⟨n, none⟩ := by
        have := congrArg Prod.fst (Except.ok.inj h)
        simpa using this.symm
      rw [hv]
      simp only []
      omega

theorem readText_no_underflow (s : List Nat) (v : Nat) (rest : List Nat)
    (h : readU32 s = .ok (v, rest)) (hv : v ≠ 0) (e : Err)
    (he : readText s = .error e) : e = .truncatedInput := by
  rw [readText, h] at he
  simp only [bind_ok] at he
  rw [if_neg hv] at he
  cases h2 : readBytes (v - 1) rest with
  | error e2 =>
    rw [h2] at he
    simp only [bind_err] at he
    rw [readBytes] at h2
    by_cases hc : v - 1 ≤ rest.length
    · rw [if_pos hc] at h2
      exact absurd h2 (by simp)
    · rw [if_neg hc] at h2
      have he2 : e2 = Err.truncatedInput := (Except.error.inj h2).symm
      subst he2
      exact (Except.error.inj he).symm
  | ok p =>
    rw [h2] at he
    simp only [bind_ok] at he
    obtain ⟨bs, s2⟩ := p
    simp only [] at he
    cases s2 with
    | nil =>
      rw [readU8] at he
      simp only [bind_err] at he
      exact (Except.error.inj he).symm
    | cons b s3 =>
      rw [readU8] at he
      simp only [bind_ok] at he
      exact absurd he (by simp)


theorem store_read_bad_magic (s : List Nat) (w : Nat) (rest : List Nat)
    (h : readU32 s = .ok (w, rest)) (hw : w ≠ MAGIC_START) :
    Store.read s = .error .malformedFraming := by
  rw [Store.read, h]
  simp only [bind_ok]
  rw [if_pos hw]

theorem store_read_bad_trailer (st : Store) (h : Store.wf st = true) (w : Nat)
    (rest : List Nat) (hw : w ≠ MAGIC_END) (hw2 : w < 4294967296) :
    Store.read (Store.writeBody st ++ (writeU32 w ++ rest)) =
      .error .malformedFraming := by
  rw [store_read_writeBody st h, readU32_writeU32]
  simp only [bind_ok]
  rw [Nat.mod_eq_of_lt hw2, if_pos hw]

set_option maxRecDepth 100000

/-- C1 (counterexample): the round trip is NOT guaranteed for every registry
whose redundant/derived fields are internally consistent.  `astralReg` holds
one wide string consisting of the single astral character U+10000; its only
model-resident carried field (`pair_count`) matches the live pair array, yet
decoding the encoded bytes does not return it: the wide-string encoder
truncates each scalar to 16 bits, destroying the value. -/
theorem C1_counterexample :
    astralReg.store.pair_count = astralReg.store.pairs.length ∧
    AssetRegistry.read (AssetRegistry.write astralReg) ≠ .ok (astralReg, []) := by
  decide

/-- C1 (amended): for every well-formed `AssetRegistry` — collection sizes
and scalar fields within their integer types, a duplicate-free name table
whose entries' UTF-8 lengths fit the 16-bit length prefix, NUL-free ANSI
strings, and wide strings whose scalars lie in [1, 0xFFFF] — decoding the
encoded byte stream returns the original registry with no bytes left over. -/
theorem C1_roundtrip (r : AssetRegistry) (h : AssetRegistry.wf r = true) :
    AssetRegistry.read (AssetRegistry.write r) = .ok (r, []) := by
  have := assetRegistry_read_write r h []
  simpa using this

/-- C1 witness: the round trip evaluated on the concrete sample registry. -/
theorem C1_roundtrip_witness :
    AssetRegistry.wf sampleReg = true ∧
    AssetRegistry.read (AssetRegistry.write sampleReg) = .ok (sampleReg, []) :=
  ⟨by decide, C1_roundtrip sampleReg (by decide)⟩

/-- C2 (counterexample): `populate` fails with `NoRootExport` on an asset
whose only export HAS a null outer reference, because that export lacks the
`RF_PUBLIC` object flag — refuting "fails with NoRootExport if and only if
no export has a null outer reference". -/
theorem C2_counterexample :
    populate emptyReg ("MyGame/Content/A".data) noPubAsset =
      .error .noRootExport ∧
    ∃ e ∈ noPubAsset.exports, e.outer_index = 0 := by
  decide

/-- C2 (amended): the root export is the FIRST export whose outer reference
is null AND whose object flags contain `RF_PUBLIC` (`isRootExport`); and
whenever the archive path maps to a game path, `populate` fails with
`NoRootExport` exactly when no export satisfies that conjunction. -/
theorem C2_amended :
    (∀ (asset : ParsedAsset) (i : Nat), getRootExport asset = some i ↔
      ∃ h : i < asset.exports.length, isRootExport asset.exports[i] = true ∧
        ∀ j (hj : j < i), isRootExport asset.exports[j] = false) ∧
    (∀ (reg : AssetRegistry) (path : List Char) (asset : ParsedAsset)
      (gp : List Char), pakPathToGamePath path = some gp →
      (populate reg path asset = .error .noRootExport ↔
        ∀ e ∈ asset.exports, isRootExport e = false)) := by
  constructor
  · intro asset i
    rw [getRootExport, List.findIdx?_eq_some_iff_getElem]
    constructor
    · rintro ⟨h, hp, hj⟩
      refine ⟨h, hp, fun j hji => ?_⟩
      have := hj j hji
      simpa using this
    · rintro ⟨h, hp, hj⟩
      exact ⟨h, hp, fun j hji => by simp [hj j hji]⟩
  · intro reg path asset gp hgp
    rw [populate_noRoot_iff reg path asset gp hgp, getRootExport,
      List.findIdx?_eq_none_iff]

/-- C2 witness: the amended error characterisation applied to the concrete
flagless asset. -/
theorem C2_amended_witness :
    populate emptyReg ("MyGame/Content/A".data) noPubAsset =
      .error .noRootExport :=
  (C2_amended.2 emptyReg ("MyGame/Content/A".data) noPubAsset ("/Game/A".data)
    (by decide)).mpr (by decide)

/-- C3 (counterexample): the second pair-count header word is NOT recomputed
from the live collections.  `pcStore` has an empty pair array but carries
`pair_count = 7`; encoding writes the carried 7 into header word 11 while
word 10 (the count governing the pair array) is the live 0, and decoding the
result hands the 7 back. -/
theorem C3_counterexample :
    pcStore.pairs.length = 0 ∧
    nth32 (Store.write pcStore) 10 = some 0 ∧
    nth32 (Store.write pcStore) 11 = some 7 ∧
    Store.read (Store.write pcStore) = .ok (pcStore, []) := by
  decide

/-- C3 (amended): `Store::write` recomputes from the live collections every
count header (words 1-7), every byte-size header (words 8, 9 and 12), the
first pair-count word (word 10, the live pair-array length), and emits both
per-string byte-offset tables as exclusive scans of the current encoded
lengths; the single exception is header word 11, which is the `pair_count`
field carried over verbatim from the original decode. -/
theorem C3_amended (st : Store) :
    nth32 (Store.write st) 0 = some MAGIC_START ∧
    nth32 (Store.write st) 1 = some (st.nbl_names.length % 4294967296) ∧
    nth32 (Store.write st) 2 = some (st.names.length % 4294967296) ∧
    nth32 (Store.write st) 3 = some (st.nbl_export_paths.length % 4294967296) ∧
    nth32 (Store.write st) 4 = some (st.export_paths.length % 4294967296) ∧
    nth32 (Store.write st) 5 = some (st.texts.length % 4294967296) ∧
    nth32 (Store.write st) 6 = some (st.ansi_strings.length % 4294967296) ∧
    nth32 (Store.write st) 7 = some (st.wide_strings.length % 4294967296) ∧
    nth32 (Store.write st) 8 = some
      ((st.ansi_strings.map (fun n => (utf8Encode n).length + 1)).sum %
        4294967296) ∧
    nth32 (Store.write st) 9 = some
      ((st.wide_strings.map (fun n => n.length + 1)).sum % 4294967296) ∧
    nth32 (Store.write st) 10 = some (st.pairs.length % 4294967296) ∧
    nth32 (Store.write st) 11 = some (st.pair_count % 4294967296) ∧
    nth32 (Store.write st) 12 = some
      ((st.texts.map (fun n => (utf8Encode n).length + 1 + 4)).sum %
        4294967296) ∧
    (Store.write st).drop
      (52 + ((st.texts.flatMap writeText).length +
        ((st.nbl_names.flatMap NameIndexFlagged.write).length +
         ((st.names.flatMap NameIndexFlagged.write).length +
          ((st.nbl_export_paths.flatMap ExportPath.write).length +
           (st.export_paths.flatMap ExportPath.write).length))))) =
      (exclScan 0 (st.ansi_strings.map
        (fun n => (utf8Encode n).length + 1))).flatMap writeU32 ++
      ((exclScan 0 (st.wide_strings.map
        (fun n => n.length + 1))).flatMap writeU32 ++
       (st.ansi_strings.flatMap writeAnsiString ++
        (st.wide_strings.flatMap writeWString ++
         (st.pairs.flatMap Pair.write ++ writeU32 MAGIC_END)))) := by
  refine ⟨?_, ?_, ?_, ?_, ?_, ?_, ?_, ?_, ?_, ?_, ?_, ?_, ?_,
    store_write_offset_tables st⟩
  all_goals rw [store_write_decomp st, nth32_flatMap_writeU32]
  all_goals first
  | rfl
  | decide
  | simp

/-- C4: both framing sentinels are enforced.  If the first `u32` of the
input is not `MAGIC_START`, `Store::read` fails with the framing error; and
if a well-formed store body is followed by a trailing `u32` other than
`MAGIC_END`, `Store::read` also fails with the framing error. -/
theorem C4_framing :
    (∀ (s : List Nat) (w : Nat) (rest : List Nat), readU32 s = .ok (w, rest) →
      w ≠ MAGIC_START → Store.read s = .error .malformedFraming) ∧
    (∀ (st : Store), Store.wf st = true → ∀ (w : Nat) (rest : List Nat),
      w ≠ MAGIC_END → w < 4294967296 →
      Store.read (Store.writeBody st ++ (writeU32 w ++ rest)) =
        .error .malformedFraming) :=
  ⟨store_read_bad_magic,
   fun st h w rest hw hw2 => store_read_bad_trailer st h w rest hw hw2⟩

/-- C4 witness: both sentinel checks evaluated on concrete inputs. -/
theorem C4_framing_witness :
    Store.read [0, 0, 0, 0] = .error .malformedFraming ∧
    Store.read (Store.writeBody emptyStore ++ (writeU32 0 ++ [])) =
      .error .malformedFraming :=
  ⟨C4_framing.1 [0, 0, 0, 0] 0 [] (by decide) (by decide),
   C4_framing.2 emptyStore (by decide) 0 [] (by decide) (by decide)⟩

/-- C5: the flagged name-index codec.  Writing sets the high bit exactly
when the optional number is present and appends it as a second `u32`;
reading an in-range value round-trips.  Conversely every successfully read
value has `index < 2^31`, and a first word without the high bit yields
`number = none`, consuming one word. -/
theorem C5_flagged :
    (∀ (v : NameIndexFlagged), NameIndexFlagged.wf v = true →
      ∀ (r : List Nat),
      NameIndexFlagged.read (NameIndexFlagged.write v ++ r) = .ok (v, r)) ∧
    (∀ (s : List Nat) (v : NameIndexFlagged) (rest : List Nat),
      NameIndexFlagged.read s = .ok (v, rest) → v.index < 2147483648) ∧
    (∀ (s : List Nat) (n : Nat) (rest : List Nat), readU32 s = .ok (n, rest) →
      n < 2147483648 → NameIndexFlagged.read s = .ok (⟨n, none⟩, rest)) := by
  refine ⟨nif_read_write, NameIndexFlagged.read_index_lt, ?_⟩
  intro s n rest h hn
  rw [NameIndexFlagged.read, h]
  simp only [bind_ok]
  rw [if_neg (by omega)]

/-- C5 witness: the codec evaluated on a flagged and an unflagged value. -/
theorem C5_flagged_witness :
    NameIndexFlagged.read (NameIndexFlagged.write ⟨5, some 9⟩ ++ [1]) =
      .ok (⟨5, some 9⟩, [1]) ∧
    NameIndexFlagged.read (writeU32 3) = .ok (⟨3, none⟩, []) :=
  ⟨C5_flagged.1 ⟨5, some 9⟩ (by decide) [1],
   C5_flagged.2.2 (writeU32 3) 3 [] (by decide) (by decide)⟩


/-- C6: populating is idempotent.  If `populate reg path asset` succeeds
with `reg'`, then running `populate reg' path asset` again succeeds and
returns `reg'` unchanged: the duplicate scan finds the object path already
recorded and the function returns early without touching its state. -/
theorem C6_idempotent (reg : AssetRegistry) (path : List Char)
    (asset : ParsedAsset) (reg' : AssetRegistry)
    (h : populate reg path asset = .ok reg') :
    populate reg' path asset = .ok reg' :=
  populate_idem reg path asset reg' h

/-- C6 witness: idempotence evaluated on the concrete Blueprint sample. -/
theorem C6_idempotent_witness :
    populate bpResultReg bpPath bpAsset = .ok bpResultReg :=
  C6_idempotent emptyReg bpPath bpAsset bpResultReg (by decide)

/-- C7 (counterexample): for the Blueprint asset `BP_Foo_C` of class
`BP_Foo_GeneratedClass`, stripping the `"GeneratedClass"` suffix leaves the
trailing underscore, so the second record's asset class is `"BP_Foo_"` and
not the bare Blueprint name `"BP_Foo"`. -/
theorem C7_counterexample :
    populate emptyReg bpPath bpAsset = .ok bpResultReg ∧
    bpResultReg.asset_data.length = 2 ∧
    (bpResultReg.asset_data.getLast?.bind
      (fun ad => bpResultReg.names[ad.asset_class.index]?)) =
      some "BP_Foo_".data ∧
    stripSuffix "BP_Foo_C".data cSuffix = some "BP_Foo".data ∧
    stripSuffix "BP_Foo_GeneratedClass".data generatedClassSuffix =
      some "BP_Foo_".data ∧
    "BP_Foo_".data ≠ "BP_Foo".data := by
  decide

/-- C7 (amended): when every lookup on the success path goes through —
game path, root export, export record, parent path, class import, and a
clean duplicate scan — `populate` succeeds, only appends to the name
table, and appends to `asset_data` either two records (when the asset name
and object path strip `"_C"` and the class strips `"GeneratedClass"`: the
first record holds the original names, the second holds exactly the
stripped strings — including the trailing underscore left by stripping
`"GeneratedClass"` — and shares package path and package name with the
first) or a single record holding the original names. -/
theorem C7_amended (reg : AssetRegistry) (path : List Char)
    (asset : ParsedAsset) (gp : List Char) (i : Nat) (root : ExportRec)
    (pp ac : List Char)
    (hgp : pakPathToGamePath path = some gp)
    (hre : getRootExport asset = some i)
    (hexp : asset.exports[i]? = some root)
    (hpar : parentPath gp = some pp)
    (himp : getImport asset root.class_index = some ac)
    (hdup : findDup reg.names reg.asset_data (gp ++ '.' :: root.object_name)
      = .ok false) :
    ∃ reg' : AssetRegistry, populate reg path asset = .ok reg' ∧
      (∃ e, reg'.names = reg.names ++ e) ∧
      (match stripSuffix root.object_name cSuffix,
             stripSuffix (gp ++ '.' :: root.object_name) cSuffix,
             stripSuffix ac generatedClassSuffix with
       | some an2s, some op2s, some ac2s =>
          ∃ r1 r2, reg'.asset_data = reg.asset_data ++ [r1, r2] ∧
            r2.package_path = r1.package_path ∧
            r2.package_name = r1.package_name ∧
            reg'.names[r1.object_path.index]? =
              some (gp ++ '.' :: root.object_name) ∧
            reg'.names[r1.package_path.index]? = some pp ∧
            reg'.names[r1.asset_class.index]? = some ac ∧
            reg'.names[r1.package_name.index]? = some gp ∧
            reg'.names[r1.asset_name.index]? = some root.object_name ∧
            reg'.names[r2.object_path.index]? = some op2s ∧
            reg'.names[r2.asset_class.index]? = some ac2s ∧
            reg'.names[r2.asset_name.index]? = some an2s
       | _, _, _ =>
          ∃ r1, reg'.asset_data = reg.asset_data ++ [r1] ∧
            reg'.names[r1.object_path.index]? =
              some (gp ++ '.' :: root.object_name) ∧
            reg'.names[r1.package_path.index]? = some pp ∧
            reg'.names[r1.asset_class.index]? = some ac ∧
            reg'.names[r1.package_name.index]? = some gp ∧
            reg'.names[r1.asset_name.index]? = some root.object_name) :=
  populate_append_spec reg path asset gp i root pp ac hgp hre hexp hpar
    himp hdup

/-- C7 witness: the amended record-append description evaluated on the
concrete Blueprint sample (the Blueprint branch of the match applies). -/
theorem C7_amended_witness :
    ∃ reg' : AssetRegistry, populate emptyReg bpPath bpAsset = .ok reg' ∧
      (∃ e, reg'.names = emptyReg.names ++ e) ∧
      (match stripSuffix "BP_Foo_C".data cSuffix,
             stripSuffix ("/Game/BP_Foo".data ++ '.' :: "BP_Foo_C".data)
               cSuffix,
             stripSuffix "BP_Foo_GeneratedClass".data generatedClassSuffix
        with
       | some an2s, some op2s, some ac2s =>
          ∃ r1 r2, reg'.asset_data = emptyReg.asset_data ++ [r1, r2] ∧
            r2.package_path = r1.package_path ∧
            r2.package_name = r1.package_name ∧
            reg'.names[r1.object_path.index]? =
              some ("/Game/BP_Foo".data ++ '.' :: "BP_Foo_C".data) ∧
            reg'.names[r1.package_path.index]? = some "/Game".data ∧
            reg'.names[r1.asset_class.index]? =
              some "BP_Foo_GeneratedClass".data ∧
            reg'.names[r1.package_name.index]? = some "/Game/BP_Foo".data ∧
            reg'.names[r1.asset_name.index]? = some "BP_Foo_C".data ∧
            reg'.names[r2.object_path.index]? = some op2s ∧
            reg'.names[r2.asset_class.index]? = some ac2s ∧
            reg'.names[r2.asset_name.index]? = some an2s
       | _, _, _ =>
          ∃ r1, reg'.asset_data = emptyReg.asset_data ++ [r1] ∧
            reg'.names[r1.object_path.index]? =
              some ("/Game/BP_Foo".data ++ '.' :: "BP_Foo_C".data) ∧
            reg'.names[r1.package_path.index]? = some "/Game".data ∧
            reg'.names[r1.asset_class.index]? =
              some "BP_Foo_GeneratedClass".data ∧
            reg'.names[r1.package_name.index]? = some "/Game/BP_Foo".data ∧
            reg'.names[r1.asset_name.index]? = some "BP_Foo_C".data) :=
  C7_amended emptyReg bpPath bpAsset ("/Game/BP_Foo".data) 0
    ⟨0, 1, "BP_Foo_C".data, -1⟩ ("/Game".data)
    ("BP_Foo_GeneratedClass".data) (by decide) (by decide) (by decide)
    (by decide) (by decide) (by decide)

/-- C8: name hashing.  `AssetRegistry::write` emits, immediately after the
version GUID and the 20 fixed header bytes, one 64-bit little-endian
CityHash64 of the UTF-8 bytes of each ASCII-lowercased name;
`AssetRegistry::read` discards the hash block, so two byte images
differing only there decode identically; and the embedded CityHash64
returns the reference value `0x62701ea6363a9b97` on `"Timestamp"`. -/
theorem C8_hashes :
    (∀ (r : AssetRegistry),
      (AssetRegistry.write r).drop (r.version.length + 20) =
      (r.names.flatMap fun n =>
        writeU64 (cityHash64 (utf8Encode (asciiLower n)))) ++
      ((r.names.flatMap fun n => writeU16be (utf8Encode n).length) ++
       ((r.names.flatMap fun n => utf8Encode n) ++
        (Store.write r.store ++
         (writeU32 r.asset_data.length ++
          (r.asset_data.flatMap AssetData.write ++
           Dependencies.write r.dependencies)))))) ∧
    (∀ (g : List Nat), g.length = 16 → ∀ (vi nc nsb hv : Nat)
      (h1 h2 rest : List Nat), h1.length = 8 * (nc % 4294967296) →
      h2.length = 8 * (nc % 4294967296) →
      AssetRegistry.read (g ++ (writeU32 vi ++ (writeU32 nc ++ (writeU32 nsb ++
        (writeU64 hv ++ (h1 ++ rest)))))) =
      AssetRegistry.read (g ++ (writeU32 vi ++ (writeU32 nc ++ (writeU32 nsb ++
        (writeU64 hv ++ (h2 ++ rest))))))) ∧
    cityHash64 (utf8Encode "Timestamp".data) = 0x62701ea6363a9b97 := by
  refine ⟨registry_write_hash_segment, ?_, by decide⟩
  intro g hg vi nc nsb hv h1 h2 rest hl1 hl2
  exact registry_read_hash_independent g hg vi nc nsb hv h1 h2 rest hl1 hl2

/-- C8 witness: hash-block independence evaluated on two concrete byte
images differing only in the single hash word. -/
theorem C8_hashes_witness :
    AssetRegistry.read (List.replicate 16 0 ++ (writeU32 0 ++ (writeU32 1 ++
      (writeU32 0 ++ (writeU64 0 ++ (List.replicate 8 1 ++ [])))))) =
    AssetRegistry.read (List.replicate 16 0 ++ (writeU32 0 ++ (writeU32 1 ++
      (writeU32 0 ++ (writeU64 0 ++ (List.replicate 8 2 ++ [])))))) :=
  C8_hashes.2.1 (List.replicate 16 0) (by decide) 0 1 0 0
    (List.replicate 8 1) (List.replicate 8 2) [] (by decide) (by decide)

/-- C9: a zero `u32` length prefix on a localized text makes `read_text`
compute `0 - 1` on an unsigned integer (a Rust panic, modelled as the
`arithUnderflow` error): a store image whose single text has prefix 0
fails that way, every zero prefix does, and a nonzero prefix can only
fail by running out of input. -/
theorem C9_underflow :
    Store.read zeroTextStoreBytes = .error .arithUnderflow ∧
    (∀ (s rest : List Nat), readU32 s = .ok (0, rest) →
      readText s = .error .arithUnderflow) ∧
    (∀ (s : List Nat) (v : Nat) (rest : List Nat), readU32 s = .ok (v, rest) →
      v ≠ 0 → ∀ (e : Err), readText s = .error e → e = .truncatedInput) := by
  refine ⟨by decide, ?_, readText_no_underflow⟩
  intro s rest h
  rw [readText, h]
  simp only [bind_ok]
  rfl

/-- C9 witness: both text-prefix cases evaluated concretely. -/
theorem C9_underflow_witness :
    readText [0, 0, 0, 0] = .error .arithUnderflow ∧
    Err.truncatedInput = Err.truncatedInput :=
  ⟨C9_underflow.2.1 [0, 0, 0, 0] [] (by decide),
   C9_underflow.2.2 [1, 0, 0, 0] 1 [] (by decide) (by decide)
     Err.truncatedInput (by decide)⟩

/-- C10 (counterexample): wide strings do not round-trip for every string
of BMP scalars: `nulWideStore` holds one wide string consisting of the
single character NUL (scalar 0 ≤ 0xFFFF), which collides with the
encoder's 16-bit terminator, so decoding the encoded store does not
return it. -/
theorem C10_counterexample :
    nulWideStore.wide_strings.all
      (fun w => w.all (fun c => c.toNat ≤ 65535)) = true ∧
    Store.read (Store.write nulWideStore) ≠ .ok (nulWideStore, []) := by
  decide

/-- C10 (amended): the wide-string codec round-trips exactly for strings of
NONZERO BMP scalars (each scalar in [1, 0xFFFF]); for scalars outside the
BMP the encoder's `as u16` truncation rewrites the character: U+1F600
decodes back as the unrelated U+F600. -/
theorem C10_amended :
    (∀ (ws : List (List Char)), ws.all wfWide = true → ∀ (r : List Nat),
      readArray readWString ws.length (ws.flatMap writeWString ++ r) =
        .ok (ws, r)) ∧
    readWString (writeWString [Char.ofNat 128512]) =
      .ok ([Char.ofNat 62976], []) ∧
    Char.ofNat 62976 ≠ Char.ofNat 128512 := by
  refine ⟨?_, by decide, by decide⟩
  intro ws hws r
  refine readArray_flatMap_id readWString writeWString ws
    (fun x hx r2 => readWString_write x ?_ r2) r
  simp only [List.all_eq_true] at hws
  exact hws x hx

/-- C10 witness: the amended round trip evaluated on a concrete BMP
string. -/
theorem C10_amended_witness :
    readArray readWString 1 ([['a', 'b']].flatMap writeWString ++ [3]) =
      .ok ([['a', 'b']], [3]) :=
  C10_amended.1 [['a', 'b']] (by decide) [3]

end UAssetReg
